import Mathlib

/-!
Verification of the Git Granary LFS server core (`src/server.ts`, `src/store.ts`,
`src/authorization.ts`, `src/utils.ts`, `src/request.ts`) against its
natural-language specification.

Shallow embedding conventions:
* JS `Map` objects become association lists; only `get`/`set`/`delete`/`has`
  are ever used by the source, so list order is irrelevant to behaviour.
* Time is an explicit `Int` of milliseconds since epoch (`Date.now()`);
  `new Date()` stored by `BatchStore.set` is the current such value.
  The source computes `ellapsed = (Date.now() - date)/1000` with float division
  and compares `ellapsed >= expires_in`; over exact arithmetic this is
  `now - date ≥ expires_in * 1000`, which is how it is written here.
* Randomness (`crypto.getRandomValues`, `crypto.randomUUID`) is a parameter:
  a generator `gen : Nat → String × String` supplies (token, uuid) pairs in
  the order the source draws them.
* `async`/`await` sequencing is compiled to explicit state passing; each
  request handler is a pure function from (config, store, now, request) to
  (response, store, adapter-call trace).
-/

/-! ## Association lists standing for JS `Map` -/

/-- `Map.get`: the value bound to `key`, if any. -/
def alGet {α : Type} : List (String × α) → String → Option α
  | [], _ => none
  | (k, v) :: t, key => if k = key then some v else alGet t key

/-- `Map.delete`: remove any binding of `key`. -/
def alRemove {α : Type} (l : List (String × α)) (key : String) : List (String × α) :=
  l.filter (fun p => p.1 ≠ key)

/-- `Map.set`: bind `key` to `v`.  The server never iterates `#store` or
`#dates`, so only lookup behaviour matters; replace-in-place is modelled as
remove-then-prepend. -/
def alSet {α : Type} (l : List (String × α)) (key : String) (v : α) : List (String × α) :=
  (key, v) :: alRemove l key

theorem alGet_alRemove_self {α : Type} (l : List (String × α)) (key : String) :
    alGet (alRemove l key) key = none := by
  induction l with
  | nil => rfl
  | cons p t ih =>
    rcases p with ⟨pk, pv⟩
    by_cases hpk : pk = key
    · simpa [alRemove, List.filter_cons, hpk] using ih
    · simpa [alRemove, List.filter_cons, hpk, alGet] using ih

theorem alGet_alRemove_ne {α : Type} (l : List (String × α)) {key k : String}
    (h : k ≠ key) : alGet (alRemove l key) k = alGet l k := by
  induction l with
  | nil => rfl
  | cons p t ih =>
    rcases p with ⟨pk, pv⟩
    by_cases hpk : pk = key
    · subst hpk
      have hpk' : pk ≠ k := fun e => h e.symm
      simpa [alRemove, List.filter_cons, alGet, hpk'] using ih
    · by_cases hp2 : pk = k
      · subst hp2
        simp [alRemove, List.filter_cons, hpk, alGet]
      · simpa [alRemove, List.filter_cons, hpk, alGet, hp2] using ih

theorem alGet_alRemove {α : Type} (l : List (String × α)) (key k : String) :
    alGet (alRemove l key) k = if k = key then none else alGet l k := by
  by_cases h : k = key
  · subst h; simp [alGet_alRemove_self]
  · simp [h, alGet_alRemove_ne l h]

theorem alGet_alSet {α : Type} (l : List (String × α)) (key k : String) (v : α) :
    alGet (alSet l key v) k = if k = key then some v else alGet l k := by
  by_cases h : k = key
  · subst h; simp [alSet, alGet]
  · have h' : key ≠ k := fun e => h e.symm
    simp [alSet, alGet, h', h, alGet_alRemove_ne l h]

/-! ## JS string primitives

JS strings are modelled as Lean `String`s; the string methods the source
uses (`split` with a single-character separator, `includes`, `at(-1)`
slash tests) are implemented structurally over the character list. -/

/-- `String.prototype.split(sep)` for a one-character separator, on
character lists: `"" → [""]`, separators delimit possibly-empty fragments. -/
def splitCharList (sep : Char) : List Char → List (List Char)
  | [] => [[]]
  | c :: t =>
    if c = sep then [] :: splitCharList sep t
    else
      match splitCharList sep t with
      | h :: r => (c :: h) :: r
      | [] => [[c]]

/-- `String.prototype.split(sep)` for a one-character separator. -/
def jsSplit (sep : Char) (s : String) : List String :=
  (splitCharList sep s.toList).map String.mk

/-- Whether `s` ends with the character `c` (the source's `at(-1)` tests). -/
def strEndsWith (s : String) (c : Char) : Bool :=
  s.toList.getLast? = some c

/-- Whether `needle` occurs at the head of `hay`. -/
def matchesAt : List Char → List Char → Bool
  | [], _ => true
  | _ :: _, [] => false
  | a :: t, b :: u => a = b && matchesAt t u

/-- Whether `needle` occurs anywhere in `hay`. -/
def subOccurs (needle : List Char) : List Char → Bool
  | [] => needle.isEmpty
  | c :: t => matchesAt needle (c :: t) || subOccurs needle t

/-! ## Protocol data types (`src/types.ts`) -/

/-- `Credentials` from `types.ts`. -/
structure Credentials where
  username : String
  password : String
deriving DecidableEq

/-- `LFSObject` from `types.ts`: `{oid: string, size: number}`. -/
structure LFSObject where
  oid : String
  size : Int
deriving DecidableEq

/-- `LFSFile` from `types.ts`: an `LFSObject` plus `pathname` and `repo`. -/
structure LFSFile where
  oid : String
  size : Int
  pathname : String
  repo : String
deriving DecidableEq

/-- `BatchResponseAction` from `types.ts`. `header` is a JS record of
header name to value. -/
structure BatchResponseAction where
  expires_in : Int
  header : List (String × String)
  href : String
deriving DecidableEq

/-- `BatchResponseObject` from `types.ts` as produced by `BatchStore.respond`
and held in the store: `actions` is a JS record keyed by operation name, kept
here in insertion order (`Object.values` order, used by `BatchStore.expired`).
The type declares `actions` as a required property, so the source's defensive
`'actions' in object` test is vacuously true at this type. -/
structure BatchResponseObject where
  oid : String
  size : Int
  authenticated : Bool
  actions : List (String × BatchResponseAction)
deriving DecidableEq

/-- A batch response entry: either a normal response object, or the
`{oid, size, error: {code, message}}` record that `BatchServer.#batch`
substitutes for missing download objects (forced cast in the source). -/
inductive BatchResponseObjectOrError where
  | obj (o : BatchResponseObject)
  | err (oid : String) (size : Int) (code : Int) (message : String)
deriving DecidableEq

/-- `oid` of either kind of response entry. -/
def BatchResponseObjectOrError.oidOf : BatchResponseObjectOrError → String
  | .obj o => o.oid
  | .err oid _ _ _ => oid

/-- `size` of either kind of response entry. -/
def BatchResponseObjectOrError.sizeOf : BatchResponseObjectOrError → Int
  | .obj o => o.size
  | .err _ size _ _ => size

/-- `BatchRequest` from `types.ts` (the fields the server reads). -/
structure BatchRequest where
  objects : List LFSObject
  operation : String
deriving DecidableEq

/-- `BatchResponse` from `types.ts`. -/
structure BatchResponse where
  hash_algo : String
  objects : List BatchResponseObjectOrError
  transfer : String
deriving DecidableEq

/-! ## URLs (`src/utils.ts` `joinURL`, and the slice of the WHATWG `URL`
class the server touches: `protocol`, `host`, `hostname`, `pathname`,
`href`, and the `host`/`protocol` setters) -/

/-- The part of a parsed `URL` the server reads and writes.  `protocol`
includes the trailing colon (as in JS, e.g. `"https:"`); `host` is
`hostname[:port]`.  `search`/`hash` are never consulted by the server and are
omitted. -/
structure URLModel where
  protocol : String
  host : String
  pathname : String
deriving DecidableEq

/-- `url.hostname`: the `host` with any `:port` suffix removed.
(IPv6 bracket syntax is not modelled.) -/
def URLModel.hostname (u : URLModel) : String :=
  String.mk (u.host.toList.takeWhile (fun c => c ≠ ':'))

/-- `url.href` over the modelled components. -/
def URLModel.href (u : URLModel) : String :=
  u.protocol ++ "//" ++ u.host ++ u.pathname

/-- `url.host = h` (the setter): `hostname` is re-derived from the new host. -/
def URLModel.setHost (u : URLModel) (h : String) : URLModel :=
  { u with host := h }

/-- `url.protocol = p` (the setter), modelled as appending the colon when
missing; the setter's special-scheme restrictions are not modelled. -/
def URLModel.setProtocol (u : URLModel) (p : String) : URLModel :=
  { u with protocol := if strEndsWith p ':' then p else p ++ ":" }

/-- `joinURL(pathname, base)` from `utils.ts`: append `pathname` to the base
URL's path, ensuring the base has a trailing slash, stripping one leading
slash of `pathname` when its *second* character is `/` (the source tests
`pathname.at(1)`), and stripping a trailing slash of `pathname`. -/
def joinURL (pathname : String) (base : URLModel) : URLModel :=
  let basePath := if strEndsWith base.pathname '/' then base.pathname
    else base.pathname ++ "/"
  let p1 := if pathname.toList.get? 1 = some '/' then pathname.drop 1 else pathname
  let p2 := if strEndsWith p1 '/' then p1.dropRight 1 else p1
  { base with pathname := basePath ++ p2 }

/-! ## `BatchStore` (`src/store.ts`) -/

/-- The token store: `#store` and `#dates` maps. `dates` holds the
`new Date()` creation instants in milliseconds. -/
structure BatchStore where
  store : List (String × BatchResponseObject)
  dates : List (String × Int)
deriving DecidableEq

/-- `BatchStore.EXPIRES_IN`: action expiry duration in seconds. -/
def BatchStore.EXPIRES_IN : Int := 3600

/-- `delete(key)`: unconditional removal from both maps; returns whether the
entry existed (the result of `Map.delete` on `#store`). -/
def BatchStore.delete (s : BatchStore) (key : String) : Bool × BatchStore :=
  ((alGet s.store key).isSome,
   { store := alRemove s.store key, dates := alRemove s.dates key })

/-- `expired(key)`: true if the key is missing or the elapsed time since
creation reaches the first action's `expires_in`; an expired present entry is
deleted as a side effect.  The source's `!('actions' in object)` test is
vacuous at the stored type (see `BatchResponseObject`); an entry whose
`actions` record is empty gets `expires_in = 0` via the `?? 0` default. -/
def BatchStore.expired (s : BatchStore) (nowMs : Int) (key : String) :
    Bool × BatchStore :=
  match alGet s.store key with
  | none => (true, s)
  | some object =>
    let dateMs : Int := (alGet s.dates key).getD 0
    let expiresIn : Int := ((object.actions.head?).map (fun a => a.2.expires_in)).getD 0
    if nowMs - dateMs ≥ expiresIn * 1000 then
      (true, (s.delete key).2)
    else
      (false, s)

/-- `has(key)`: `expired(key) ? false : #store.has(key)`. -/
def BatchStore.has (s : BatchStore) (nowMs : Int) (key : String) :
    Bool × BatchStore :=
  let (e, s') := s.expired nowMs key
  if e then (false, s') else ((alGet s'.store key).isSome, s')

/-- `get(key)`: `expired(key) ? undefined : #store.get(key)`. -/
def BatchStore.get (s : BatchStore) (nowMs : Int) (key : String) :
    Option BatchResponseObject × BatchStore :=
  let (e, s') := s.expired nowMs key
  if e then (none, s') else (alGet s'.store key, s')

/-- `set(key, object)`: insert into both maps and schedule
`setTimeout(() => delete(key), EXPIRES_IN * 1000)`.  The second component is
the scheduled timeout delay in milliseconds. -/
def BatchStore.set (s : BatchStore) (nowMs : Int) (key : String)
    (object : BatchResponseObject) : BatchStore × Int :=
  ({ store := alSet s.store key object, dates := alSet s.dates key nowMs },
   BatchStore.EXPIRES_IN * 1000)

/-- `BatchStore.action(operation, url)`: build the action key and record.
`token` stands for `encodeHex(crypto.getRandomValues(new Uint8Array(16)))`
and `uuid` for `crypto.randomUUID()`; both are drawn from the generator
parameter at each call site. -/
def BatchStore.action (operation : String) (url : URLModel)
    (token uuid : String) : String × BatchResponseAction :=
  let key := operation ++ "/" ++ uuid
  ( key,
    { expires_in := BatchStore.EXPIRES_IN,
      header := [("authorization", "Bearer " ++ token)],
      href := (joinURL key url).href } )

/-- One `set` call recorded during `respond`: the key, the (final) stored
object and the scheduled timeout delay. -/
structure SetEvent where
  key : String
  object : BatchResponseObject
  delayMs : Int
deriving DecidableEq

/-- The per-object body of `BatchStore.respond`.  `gen n` supplies the
`n`-th (token, uuid) pair in draw order.  In the source the `verify` action
is added by mutating the already-registered object, which is aliased under
both keys; the final store state therefore binds both keys to the object
carrying both actions, which is what this pure version stores directly. -/
def BatchStore.respondList (nowMs : Int) (operation : String) (url : URLModel)
    (gen : Nat → String × String) :
    BatchStore → Nat → List LFSObject →
      List BatchResponseObject × BatchStore × List SetEvent
  | s, _, [] => ([], s, [])
  | s, n, o :: rest =>
    let t := gen n
    let ka := BatchStore.action operation url t.1 t.2
    if operation = "upload" then
      let t2 := gen (n + 1)
      let ka2 := BatchStore.action "verify" url t2.1 t2.2
      let object : BatchResponseObject :=
        { oid := o.oid, size := o.size, authenticated := true,
          actions := [(operation, ka.2), ("verify", ka2.2)] }
      let s1 := (s.set nowMs ka.1 object).1
      let d1 := (s.set nowMs ka.1 object).2
      let s2 := (s1.set nowMs ka2.1 object).1
      let d2 := (s1.set nowMs ka2.1 object).2
      let r := BatchStore.respondList nowMs operation url gen s2 (n + 2) rest
      (object :: r.1, r.2.1, ⟨ka.1, object, d1⟩ :: ⟨ka2.1, object, d2⟩ :: r.2.2)
    else
      let object : BatchResponseObject :=
        { oid := o.oid, size := o.size, authenticated := true,
          actions := [(operation, ka.2)] }
      let s1 := (s.set nowMs ka.1 object).1
      let d1 := (s.set nowMs ka.1 object).2
      let r := BatchStore.respondList nowMs operation url gen s1 (n + 1) rest
      (object :: r.1, r.2.1, ⟨ka.1, object, d1⟩ :: r.2.2)

/-- `respond(request, url)`: build the batch response and register every
generated action. -/
def BatchStore.respond (s : BatchStore) (nowMs : Int) (request : BatchRequest)
    (url : URLModel) (gen : Nat → String × String) :
    BatchResponse × BatchStore × List SetEvent :=
  let r := BatchStore.respondList nowMs request.operation url gen s 0 request.objects
  ( { hash_algo := "sha256",
      objects := r.1.map BatchResponseObjectOrError.obj,
      transfer := "basic" },
    r.2.1, r.2.2 )

/-! ## Authorization parsing (`src/authorization.ts`) -/

/-- Value of a base64 alphabet character, if any. -/
def base64Char (c : Char) : Option Nat :=
  if 'A' ≤ c ∧ c ≤ 'Z' then some (c.toNat - 65)
  else if 'a' ≤ c ∧ c ≤ 'z' then some (c.toNat - 97 + 26)
  else if '0' ≤ c ∧ c ≤ '9' then some (c.toNat - 48 + 52)
  else if c = '+' then some 62
  else if c = '/' then some 63
  else none

/-- ASCII whitespace, as stripped by forgiving-base64. -/
def isAsciiWhitespace (c : Char) : Bool :=
  c = ' ' ∨ c = '\t' ∨ c = '\n' ∨ c = '\x0c' ∨ c = '\r'

/-- Turn a whitespace-stripped, padding-stripped run of sextet values into
bytes (24-bit groups; a trailing 12- or 18-bit buffer contributes one or two
bytes, surplus bits discarded, per forgiving-base64). -/
def b64Bytes : List Nat → Option (List Nat)
  | [] => some []
  | [_] => none
  | [a, b] => some [a * 4 + b / 16]
  | [a, b, c] => some [a * 4 + b / 16, (b % 16) * 16 + c / 4]
  | a :: b :: c :: d :: rest =>
    (b64Bytes rest).map
      (fun t => (a * 4 + b / 16) :: ((b % 16) * 16 + c / 4) :: ((c % 4) * 64 + d) :: t)

/-- `decodeBase64` from `@std/encoding`, which follows the WHATWG
forgiving-base64 algorithm (`atob`): strip ASCII whitespace; when the length
is a multiple of four, drop one or two trailing `=`; fail when the remaining
length is `1 mod 4` or any character is outside the alphabet.  `none` models
the error the source function throws on invalid input. -/
def decodeBase64 (s : String) : Option (List Nat) :=
  let data := s.toList.filter (fun c => ¬ isAsciiWhitespace c)
  let data :=
    if data.length % 4 = 0 then
      match data.reverse with
      | '=' :: '=' :: rest => rest.reverse
      | '=' :: rest => rest.reverse
      | _ => data
    else data
  if data.length % 4 = 1 then none
  else if data.any (fun c => (base64Char c).isNone) then none
  else b64Bytes (data.map (fun c => (base64Char c).getD 0))

/-- `new TextDecoder().decode(bytes).normalize()`, modelled byte-wise: ASCII
bytes decode to themselves and any byte ≥ 0x80 becomes U+FFFD.  (A real
UTF-8 decoder merges multi-byte sequences into single non-ASCII characters;
collapsing each such byte to U+FFFD preserves everything the parser below
inspects — colon occurrences and segment non-emptiness — since `:` never
occurs as a byte of a multi-byte sequence.  NFC normalisation is the
identity on ASCII and neither creates nor removes colons.) -/
def textDecode (bs : List Nat) : String :=
  String.mk (bs.map (fun b => if b < 128 then Char.ofNat b else Char.ofNat 0xFFFD))

/-- `parseAuthorization(request)` from `authorization.ts`, as a function of
the request's `authorization` header (`none` when the header is missing).
`.ok none` is the `null` return; `.error` models the exception thrown by
`decodeBase64` on invalid base64, which the source does not catch.
`authorization.split(" ")` destructured to `[scheme, encoded]` takes the
first two fragments; a missing second fragment and an empty one are both
falsy, so both map to `""` here.  `decoded.split(":", 2)` keeps the first
two colon-separated fields. -/
def parseAuthorization (authHeader : Option String) :
    Except String (Option Credentials) :=
  match authHeader with
  | none => .ok none
  | some authorization =>
    let parts := jsSplit ' ' authorization
    let scheme := (parts.get? 0).getD ""
    let encoded := (parts.get? 1).getD ""
    if scheme ≠ "Basic" ∨ encoded = "" then .ok none
    else
      match decodeBase64 encoded with
      | none => .error "InvalidCharacterError"
      | some bytes =>
        let decoded := textDecode bytes
        if ¬ decoded.toList.contains ':' then .ok none
        else
          let fields := jsSplit ':' decoded
          let username := (fields.get? 0).getD ""
          let password := (fields.get? 1).getD ""
          if username = "" ∨ password = "" then .ok none
          else .ok (some { username, password })

/-! ## Server model (`src/server.ts`, helpers from `src/utils.ts`,
`src/request.ts`) -/

/-- An inbound request, as far as the server consults it.  `headers` holds
lower-case header names (JS `Headers.get` is case-insensitive).
`batchBody`/`verifyBody` are the outcomes of `parseRequest`/`parseVerify` on
the request body: JSON parsing and `jsonlike` shape checking are abstracted
into these precomputed results (`none` = malformed JSON or shape mismatch). -/
structure RequestM where
  url : URLModel
  method : String
  headers : List (String × String)
  hasBody : Bool
  batchBody : Option BatchRequest
  verifyBody : Option LFSObject
deriving DecidableEq

/-- `request.headers.get(name)` (names already lower-case here). -/
def hGet (r : RequestM) (name : String) : Option String :=
  alGet r.headers name

/-- One call delegated to the runtime `BatchAdapter`. -/
inductive AdapterCall where
  | check (f : LFSFile)
  | download (f : LFSFile)
  | upload (f : LFSFile)
deriving DecidableEq

/-- A response body the server itself serialises. -/
inductive JsonBody where
  | message (m : String)
  | batch (b : BatchResponse)
deriving DecidableEq

/-- The server's response, up to the parts the specification talks about:
`empty n` is `new Response(null, {status: n})`; `json n b` is
`jsonResponse(n, b)`; `delegated c` is a response produced by the adapter
(download/upload streaming); `web` is the out-of-scope root browsing page;
`fault e` is an uncaught exception escaping the handler. -/
inductive ResponseOut where
  | empty (status : Nat)
  | json (status : Nat) (body : JsonBody)
  | delegated (c : AdapterCall)
  | web
  | fault (e : String)
deriving DecidableEq

/-- The HTTP status of a direct (non-delegated) response. -/
def ResponseOut.statusOf : ResponseOut → Option Nat
  | .empty n => some n
  | .json n _ => some n
  | _ => none

/-- Server configuration (`BatchServerOptions` after the constructor ran):
`origin` is `options.origin ?? options.url`; `check` abstracts the runtime
adapter's `check` capability as a pure predicate on files; `hasWeb` is
whether `adapter.web` is defined. -/
structure ServerConfig where
  url : URLModel
  origin : URLModel
  fsRoot : URLModel
  username : String
  password : String
  webgui : Bool
  hasWeb : Bool
  check : LFSFile → Bool

/-- Substring test (`String.prototype.includes`). -/
def containsSubstring (s needle : String) : Bool :=
  subOccurs needle.toList s.toList

/-- `methodError(request, method)` from `utils.ts`. -/
def methodError (r : RequestM) (method : String) : Option ResponseOut :=
  if r.method ≠ method then some (.json 405 (.message "Invalid method")) else none

/-- `acceptError(request)` from `utils.ts` at its default content type. -/
def acceptError (r : RequestM) : Option ResponseOut :=
  match hGet r "accept" with
  | none => some (.json 406 (.message "Invalid accept header"))
  | some a =>
    if containsSubstring a "application/vnd.git-lfs+json" then none
    else some (.json 406 (.message "Invalid accept header"))

/-- A hex digit (either case). -/
def isHexDigit (c : Char) : Bool :=
  c.isDigit ∨ ('a' ≤ c ∧ c ≤ 'f') ∨ ('A' ≤ c ∧ c ≤ 'F')

/-- `validateId` from `utils.ts`: the UUIDv4 shape
`^[0-9a-f]{8}-[0-9a-f]{4}-4[0-9a-f]{3}-[89ab][0-9a-f]{3}-[0-9a-f]{12}$`
with the case-insensitive flag. -/
def validateId (id : String) : Bool :=
  let cs := id.toList
  cs.length = 36 ∧
  (List.range 36).all (fun i =>
    let c := (cs.get? i).getD ' '
    if i = 8 ∨ i = 13 ∨ i = 18 ∨ i = 23 then c = '-'
    else if i = 14 then c = '4'
    else if i = 19 then ['8', '9', 'a', 'b', 'A', 'B'].contains c
    else isHexDigit c)

/-- A `:repo([a-zA-Z0-9._-]+)` path parameter. -/
def validRepoName (s : String) : Bool :=
  s ≠ "" ∧ s.toList.all (fun c => c.isAlphanum ∨ c = '.' ∨ c = '_' ∨ c = '-')

/-- A `:uuid([0-9a-f-]{36})` path parameter. -/
def uuidSegment (s : String) : Bool :=
  s.length = 36 ∧ s.toList.all (fun c => c.isDigit ∨ ('a' ≤ c ∧ c ≤ 'f') ∨ c = '-')

/-- A pathname split into exactly four `/`-separated segments. -/
def seg4 (p : String) : Option (String × String × String × String) :=
  match jsSplit '/' p with
  | [a, b, c, d] => some (a, b, c, d)
  | _ => none

/-- `URLPattern {pathname: "/:repo([a-zA-Z0-9._-]+)/objects/batch"}`. -/
def batchMatch (p : String) : Option String :=
  match seg4 p with
  | some (a, repo, x, y) =>
    if a = "" ∧ validRepoName repo ∧ x = "objects" ∧ y = "batch" then some repo
    else none
  | none => none

/-- `URLPattern {pathname: "/:repo([a-zA-Z0-9._-]+)/:operation/:uuid([0-9a-f-]{36})"}`.
An unconstrained `:operation` parameter matches any non-empty segment. -/
def transferMatch (p : String) : Option (String × String × String) :=
  match seg4 p with
  | some (a, repo, operation, uuid) =>
    if a = "" ∧ validRepoName repo ∧ operation ≠ "" ∧ uuidSegment uuid then
      some (repo, operation, uuid)
    else none
  | none => none

/-- `BatchServer.#getFile(object, repo)`. -/
def BatchServer.getFile (cfg : ServerConfig) (object : LFSObject) (repo : String) :
    LFSFile :=
  { oid := object.oid, size := object.size, repo,
    pathname := (joinURL (repo ++ "/" ++ object.oid) cfg.fsRoot).pathname }

/-- JS strict equality between `request.headers.get(...)` (a string or
`null`) and `transfer.actions?.op?.header?.["authorization"]` (a string or
`undefined`): true only when both are strings and equal (`null === undefined`
is false). -/
def tokenEq : Option String → Option String → Bool
  | some a, some b => a = b
  | _, _ => false

/-- The registered bearer header value for `operation` in a stored entry. -/
def actionAuth (o : BatchResponseObject) (operation : String) : Option String :=
  (alGet o.actions operation).bind (fun a => alGet a.header "authorization")

/-- `BatchServer.#download`: requires GET, consumes the entry, checks the
bearer token, then delegates the transfer to the adapter.  A `get` miss
(impossible when invoked through `handle`, which checked `has`) makes the
source's non-null assertion `get(key)!` blow up at the `transfer.actions`
access — after the `delete` — which `fault` records. -/
def BatchServer.download (cfg : ServerConfig) (s : BatchStore) (nowMs : Int)
    (r : RequestM) (repo key : String) :
    ResponseOut × BatchStore × List AdapterCall :=
  match methodError r "GET" with
  | some e => (e, s, [])
  | none =>
    match BatchStore.get s nowMs key with
    | (none, s1) => (.fault "TypeError", ((s1.delete key).2), [])
    | (some transfer, s1) =>
      let s2 := (s1.delete key).2
      if ¬ tokenEq (hGet r "authorization") (actionAuth transfer "download") then
        (.json 401 (.message "Invalid token"), s2, [])
      else
        let f := BatchServer.getFile cfg ⟨transfer.oid, transfer.size⟩ repo
        (.delegated (.download f), s2, [.download f])

/-- `BatchServer.#upload`: requires PUT, consumes the entry, checks the
bearer token, requires a body whose `content-length` equals the stored
object's size rendered in decimal, then delegates to the adapter. -/
def BatchServer.upload (cfg : ServerConfig) (s : BatchStore) (nowMs : Int)
    (r : RequestM) (repo key : String) :
    ResponseOut × BatchStore × List AdapterCall :=
  match methodError r "PUT" with
  | some e => (e, s, [])
  | none =>
    match BatchStore.get s nowMs key with
    | (none, s1) => (.fault "TypeError", ((s1.delete key).2), [])
    | (some transfer, s1) =>
      let s2 := (s1.delete key).2
      if ¬ tokenEq (hGet r "authorization") (actionAuth transfer "upload") then
        (.json 401 (.message "Invalid token"), s2, [])
      else if ¬ r.hasBody ∨ hGet r "content-length" ≠ some (toString transfer.size) then
        (.json 400 (.message "Invalid upload"), s2, [])
      else
        let f := BatchServer.getFile cfg ⟨transfer.oid, transfer.size⟩ repo
        (.delegated (.upload f), s2, [.upload f])

/-- `BatchServer.#verify`: requires POST and the LFS accept header, consumes
the entry, checks the bearer token, requires a shape-valid body (whose
values are then ignored), and answers 200/404 from the adapter's existence
check of the token-bound object. -/
def BatchServer.verify (cfg : ServerConfig) (s : BatchStore) (nowMs : Int)
    (r : RequestM) (repo key : String) :
    ResponseOut × BatchStore × List AdapterCall :=
  match methodError r "POST" with
  | some e => (e, s, [])
  | none =>
  match acceptError r with
  | some e => (e, s, [])
  | none =>
    match BatchStore.get s nowMs key with
    | (none, s1) => (.fault "TypeError", ((s1.delete key).2), [])
    | (some transfer, s1) =>
      let s2 := (s1.delete key).2
      if ¬ tokenEq (hGet r "authorization") (actionAuth transfer "verify") then
        (.json 401 (.message "Invalid token"), s2, [])
      else
        match r.verifyBody with
        | none => (.json 422 (.message "Invalid object"), s2, [])
        | some _ =>
          let f := BatchServer.getFile cfg ⟨transfer.oid, transfer.size⟩ repo
          if cfg.check f then (.empty 200, s2, [.check f])
          else (.json 404 (.message "Object not found"), s2, [.check f])

/-- `BatchServer.#batch`: POST + accept + Basic credentials + body shape +
operation checks, then `BatchStore.respond`; for download operations every
object is existence-checked and missing ones are replaced in place by a 404
error stanza. -/
def BatchServer.batch (cfg : ServerConfig) (s : BatchStore) (nowMs : Int)
    (gen : Nat → String × String) (r : RequestM) (repo : String) :
    ResponseOut × BatchStore × List AdapterCall :=
  match methodError r "POST" with
  | some e => (e, s, [])
  | none =>
  match acceptError r with
  | some e => (e, s, [])
  | none =>
  match parseAuthorization (hGet r "authorization") with
  | .error e => (.fault e, s, [])
  | .ok credentials =>
    -- `credentials?.username !== this.#username || credentials?.password !== ...`:
    -- a null result never equals the configured strings.
    let credOk : Bool := match credentials with
      | some c => c.username = cfg.username ∧ c.password = cfg.password
      | none => false
    if ¬ credOk then (.json 401 (.message "Invalid credentials"), s, [])
    else
      match r.batchBody with
      | none => (.json 422 (.message "Invalid objects"), s, [])
      | some body =>
        if ¬ (body.operation = "download" ∨ body.operation = "upload") then
          (.json 400 (.message "Unknown operation"), s, [])
        else
          let res := BatchStore.respond s nowMs body (joinURL repo cfg.origin) gen
          let json := res.1
          let s' := res.2.1
          if body.operation = "download" then
            let objects := json.objects.map (fun ro =>
              let f := BatchServer.getFile cfg ⟨ro.oidOf, ro.sizeOf⟩ repo
              if cfg.check f then ro
              else .err f.oid f.size 404 "Object does not exist")
            let calls := json.objects.map (fun ro =>
              AdapterCall.check (BatchServer.getFile cfg ⟨ro.oidOf, ro.sizeOf⟩ repo))
            (.json 200 (.batch { json with objects := objects }), s', calls)
          else
            (.json 200 (.batch json), s', [])

/-- Route dispatch: the body of `handle` after the reverse-proxy block.
Order: web preview, batch pattern, transfer pattern (UUIDv4 shape and a live
store key required, the store probe short-circuited behind `validateId`),
else 404.  The transfer pattern's `repo` group is always non-empty, so the
source's `repo && valid` test is the `valid` test here. -/
def BatchServer.dispatch (cfg : ServerConfig) (s : BatchStore) (nowMs : Int)
    (gen : Nat → String × String) (r : RequestM) :
    ResponseOut × BatchStore × List AdapterCall :=
  if cfg.webgui ∧ cfg.hasWeb ∧ r.url.pathname = "/" then (.web, s, [])
  else
    match batchMatch r.url.pathname with
    | some repo => BatchServer.batch cfg s nowMs gen r repo
    | none =>
      match transferMatch r.url.pathname with
      | some (repo, operation, uuid) =>
        let key := operation ++ "/" ++ uuid
        if validateId uuid then
          let hs := BatchStore.has s nowMs key
          if hs.1 then
            match operation with
            | "download" => BatchServer.download cfg hs.2 nowMs r repo key
            | "upload" => BatchServer.upload cfg hs.2 nowMs r repo key
            | "verify" => BatchServer.verify cfg hs.2 nowMs r repo key
            | _ => (.empty 404, hs.2, [])
          else (.empty 404, hs.2, [])
        else (.empty 404, s, [])
      | none => (.empty 404, s, [])

/-- `BatchServer.handle`: reverse-proxy host/scheme reconciliation followed
by route dispatch.  `RequestM.url` is the parsed request URL (the `URL.parse`
failure branch, status 400, concerns only malformed adapter-supplied URL
strings and is not modelled).  When a public origin is configured (its href
differs from the bind URL's), the effective host and protocol are rewritten
from the `x-forwarded-host`/`x-forwarded-proto` headers when present, and the
request is rejected with an empty 404 unless the rewritten hostname and
protocol equal the origin's. -/
def BatchServer.handle (cfg : ServerConfig) (s : BatchStore) (nowMs : Int)
    (gen : Nat → String × String) (r : RequestM) :
    ResponseOut × BatchStore × List AdapterCall :=
  if cfg.origin.href = cfg.url.href then
    BatchServer.dispatch cfg s nowMs gen r
  else
    let url1 := match hGet r "x-forwarded-host" with
      | some h => r.url.setHost h
      | none => r.url
    let url2 := match hGet r "x-forwarded-proto" with
      | some p => url1.setProtocol p
      | none => url1
    if cfg.origin.hostname ≠ url2.hostname ∨ cfg.origin.protocol ≠ url2.protocol then
      (.empty 404, s, [])
    else
      BatchServer.dispatch cfg s nowMs gen { r with url := url2 }

/-! ## Store-level lemmas -/

/-- The `expires_in` the store attributes to an entry:
`Object.values(object.actions).at(0)?.expires_in ?? 0`. -/
def entryExpiresIn (o : BatchResponseObject) : Int :=
  ((o.actions.head?).map (fun a => a.2.expires_in)).getD 0

/-- The smallest `expires_in` among an entry's actions — the delay the
specification says `set` schedules its deferred removal with. -/
def smallestExpiresIn (o : BatchResponseObject) : Option Int :=
  (o.actions.map (fun a => a.2.expires_in)).min?

theorem expired_of_absent (s : BatchStore) (nowMs : Int) (key : String)
    (h : alGet s.store key = none) : s.expired nowMs key = (true, s) := by
  simp [BatchStore.expired, h]

theorem expired_store_eq_of_false (s : BatchStore) (nowMs : Int) (key : String)
    (h : (s.expired nowMs key).1 = false) : (s.expired nowMs key).2 = s := by
  unfold BatchStore.expired at *
  cases ho : alGet s.store key with
  | none => simp [ho] at h
  | some o =>
    simp only [ho] at h ⊢
    by_cases hc : nowMs - (alGet s.dates key).getD 0 ≥
        (((o.actions.head?).map (fun a => a.2.expires_in)).getD 0) * 1000
    · simp [hc] at h
    · simp [hc]

theorem has_spec (s : BatchStore) (nowMs : Int) (key : String) :
    s.has nowMs key =
      if (s.expired nowMs key).1 then (false, (s.expired nowMs key).2)
      else ((alGet (s.expired nowMs key).2.store key).isSome, (s.expired nowMs key).2) := by
  unfold BatchStore.has
  rcases hp : s.expired nowMs key with ⟨e, s1⟩
  cases e <;> simp

theorem get_spec (s : BatchStore) (nowMs : Int) (key : String) :
    s.get nowMs key =
      if (s.expired nowMs key).1 then (none, (s.expired nowMs key).2)
      else (alGet (s.expired nowMs key).2.store key, (s.expired nowMs key).2) := by
  unfold BatchStore.get
  rcases hp : s.expired nowMs key with ⟨e, s1⟩
  cases e <;> simp

theorem has_true_inv (s : BatchStore) (nowMs : Int) (key : String)
    (h : (s.has nowMs key).1 = true) :
    (s.expired nowMs key).1 = false ∧ (s.has nowMs key).2 = s ∧
      ∃ o, alGet s.store key = some o := by
  by_cases he : (s.expired nowMs key).1 = true
  · rw [has_spec] at h; simp [he] at h
  · have he' : (s.expired nowMs key).1 = false := by simpa using he
    have hs : (s.expired nowMs key).2 = s :=
      expired_store_eq_of_false s nowMs key he'
    rw [has_spec] at h
    simp only [he', if_false, hs, Bool.false_eq_true] at h
    exact ⟨he', by rw [has_spec]; simp [he', hs], Option.isSome_iff_exists.mp h⟩

theorem get_of_has_true (s : BatchStore) (nowMs : Int) (key : String)
    (o : BatchResponseObject)
    (h : (s.has nowMs key).1 = true) (ho : alGet s.store key = some o) :
    s.get nowMs key = (some o, s) := by
  obtain ⟨he, -, -⟩ := has_true_inv s nowMs key h
  have hs : (s.expired nowMs key).2 = s := expired_store_eq_of_false s nowMs key he
  rw [get_spec]
  simp [he, hs, ho]

theorem expired_spec (s : BatchStore) (nowMs : Int) (key : String)
    (o : BatchResponseObject) (ho : alGet s.store key = some o) :
    s.expired nowMs key =
      if nowMs - (alGet s.dates key).getD 0 ≥ entryExpiresIn o * 1000
      then (true, (s.delete key).2) else (false, s) := by
  simp only [BatchStore.expired, ho, entryExpiresIn]

/-- **C3.** For every key and store state (with the recorded creation
instant not in the future), `expired(key)` is true exactly when the key is
absent, or the entry has no actions, or the elapsed time since creation is
at least the entry's `expires_in` (compared in exact arithmetic:
`(now − date)/1000 ≥ e` iff `now − date ≥ e·1000`); `get(key)` returns the
stored entry when unexpired and the absent sentinel otherwise; and a `get`
or `expired` call on an expired key leaves the entry absent from the store. -/
theorem C3_get_expired_contract (s : BatchStore) (nowMs : Int) (key : String)
    (hdate : (alGet s.dates key).getD 0 ≤ nowMs) :
    ((s.expired nowMs key).1 = true ↔
      alGet s.store key = none ∨
        ∃ o, alGet s.store key = some o ∧
          (o.actions = [] ∨
            nowMs - (alGet s.dates key).getD 0 ≥ entryExpiresIn o * 1000))
    ∧ (s.get nowMs key).1 =
        (if (s.expired nowMs key).1 then none else alGet s.store key)
    ∧ ((s.expired nowMs key).1 = true →
        alGet (s.expired nowMs key).2.store key = none ∧
        alGet (s.get nowMs key).2.store key = none) := by
  cases ho : alGet s.store key with
  | none =>
    have hexp := expired_of_absent s nowMs key ho
    refine ⟨?_, ?_, ?_⟩
    · rw [hexp]; exact ⟨fun _ => Or.inl rfl, fun _ => rfl⟩
    · rw [get_spec, hexp]; simp
    · intro _
      rw [get_spec, hexp]
      simp [ho]
  | some o =>
    have hspec := expired_spec s nowMs key o ho
    by_cases hc : nowMs - (alGet s.dates key).getD 0 ≥ entryExpiresIn o * 1000
    · have hexp : s.expired nowMs key = (true, (s.delete key).2) := by
        rw [hspec, if_pos hc]
      refine ⟨?_, ?_, ?_⟩
      · rw [hexp]; exact ⟨fun _ => Or.inr ⟨o, rfl, Or.inr hc⟩, fun _ => rfl⟩
      · rw [get_spec, hexp]; simp
      · intro _
        rw [get_spec, hexp]
        simp [BatchStore.delete, alGet_alRemove_self]
    · have hexp : s.expired nowMs key = (false, s) := by
        rw [hspec, if_neg hc]
      refine ⟨?_, ?_, ?_⟩
      · rw [hexp]
        apply iff_of_false (by simp)
        rintro (habs | ⟨o', ho', hdisj⟩)
        · cases habs
        · injection ho' with he; subst he
          rcases hdisj with hnil | hcond
          · apply hc
            have h0 : entryExpiresIn o = 0 := by simp [entryExpiresIn, hnil]
            rw [h0]
            omega
          · exact hc hcond
      · rw [get_spec, hexp]; simp [ho]
      · rw [hexp]; intro h; exact absurd h (by simp)

def c3wObject : BatchResponseObject :=
  { oid := "o", size := 1, authenticated := true,
    actions := [("download", { expires_in := 10, header := [], href := "" })] }

def c3wStore : BatchStore :=
  { store := [("download/k", c3wObject)], dates := [("download/k", 0)] }

/-- Witness for C3 at a concrete expired entry (created at 0, read 20 s
later, `expires_in` 10 s). -/
theorem C3_witness :
    ((alGet c3wStore.dates "download/k").getD 0 ≤ (20000 : Int))
    ∧ (((c3wStore.expired 20000 "download/k").1 = true ↔
        alGet c3wStore.store "download/k" = none ∨
          ∃ o, alGet c3wStore.store "download/k" = some o ∧
            (o.actions = [] ∨
              (20000 : Int) - (alGet c3wStore.dates "download/k").getD 0 ≥
                entryExpiresIn o * 1000))
      ∧ (c3wStore.get 20000 "download/k").1 =
          (if (c3wStore.expired 20000 "download/k").1 then none
           else alGet c3wStore.store "download/k")
      ∧ ((c3wStore.expired 20000 "download/k").1 = true →
          alGet (c3wStore.expired 20000 "download/k").2.store "download/k" = none ∧
          alGet (c3wStore.get 20000 "download/k").2.store "download/k" = none)) :=
  ⟨by decide, C3_get_expired_contract c3wStore 20000 "download/k" (by decide)⟩

def c8Object : BatchResponseObject :=
  { oid := "o", size := 1, authenticated := true,
    actions := [("download", { expires_in := 7, header := [], href := "" })] }

/-- **C8, counterexample.** `set` schedules its deferred removal with the
fixed delay `EXPIRES_IN * 1000` ms, not with the entry's smallest action
`expires_in`: an entry whose only action expires in 7 s is scheduled for
removal after 3 600 000 ms, not 7 000 ms. -/
theorem C8_counterexample :
    smallestExpiresIn c8Object = some 7 ∧
    (BatchStore.set ⟨[], []⟩ 0 "download/k" c8Object).2 = 3600 * 1000 ∧
    (BatchStore.set ⟨[], []⟩ 0 "download/k" c8Object).2 ≠ 7 * 1000 := by
  exact ⟨by decide, rfl, by decide⟩

/-- **C8, amended.** `set(key, entry)` inserts the entry and a creation
timestamp (leaving other keys untouched) and schedules a deferred removal
of the key that fires after the fixed delay `BatchStore.EXPIRES_IN`
(3600 s), independently of the entry's actions and of the lazy expiry
checks. -/
theorem C8_set_contract (s : BatchStore) (nowMs : Int) (key : String)
    (o o2 : BatchResponseObject) :
    (BatchStore.set s nowMs key o).2 = BatchStore.EXPIRES_IN * 1000 ∧
    (BatchStore.set s nowMs key o).2 = (BatchStore.set s nowMs key o2).2 ∧
    (∀ k, alGet (BatchStore.set s nowMs key o).1.store k =
        if k = key then some o else alGet s.store k) ∧
    (∀ k, alGet (BatchStore.set s nowMs key o).1.dates k =
        if k = key then some nowMs else alGet s.dates k) := by
  refine ⟨rfl, rfl, ?_, ?_⟩ <;> intro k <;> apply alGet_alSet

/-! ## Split/field lemmas for the authorization parser -/

theorem splitCharList_get0 (sep : Char) (l : List Char) :
    (splitCharList sep l).get? 0 = some (l.takeWhile (fun c => c ≠ sep)) := by
  induction l with
  | nil => rfl
  | cons c t ih =>
    by_cases hc : c = sep
    · subst hc; simp [splitCharList, List.takeWhile_cons]
    · cases hsp : splitCharList sep t with
      | nil => rw [hsp] at ih; simp at ih
      | cons hh r =>
        rw [hsp] at ih
        simp only [List.get?] at ih
        injection ih with ihh
        simp [splitCharList, hc, hsp, List.takeWhile_cons, ihh]

theorem splitCharList_get1 (sep : Char) (l : List Char) :
    (splitCharList sep l).get? 1 =
      if l.contains sep
      then some (((l.dropWhile (fun c => c ≠ sep)).drop 1).takeWhile (fun c => c ≠ sep))
      else none := by
  induction l with
  | nil => simp [splitCharList]
  | cons c t ih =>
    by_cases hc : c = sep
    · subst hc
      have h0 := splitCharList_get0 c t
      simp only [splitCharList, if_pos rfl, List.get?, List.contains_cons,
        List.dropWhile_cons]
      simpa using h0
    · cases hsp : splitCharList sep t with
      | nil =>
        have h0 := splitCharList_get0 sep t
        rw [hsp] at h0; simp at h0
      | cons hh r =>
        rw [hsp] at ih
        have hcs : ¬ sep = c := fun e => hc e.symm
        simp only [splitCharList, hc, if_false, hsp, List.get?, List.contains_cons,
          List.dropWhile_cons] at ih ⊢
        simpa [hc, hcs] using ih

theorem jsSplit_get0 (sep : Char) (s : String) :
    ((jsSplit sep s).get? 0) =
      some (String.mk (s.toList.takeWhile (fun c => c ≠ sep))) := by
  unfold jsSplit
  rw [List.get?_map, splitCharList_get0]
  rfl

theorem jsSplit_get1 (sep : Char) (s : String) :
    ((jsSplit sep s).get? 1) =
      if s.toList.contains sep
      then some (String.mk
        (((s.toList.dropWhile (fun c => c ≠ sep)).drop 1).takeWhile (fun c => c ≠ sep)))
      else none := by
  unfold jsSplit
  rw [List.get?_map, splitCharList_get1]
  by_cases h : s.toList.contains sep
  · rw [if_pos h, if_pos h]; rfl
  · rw [if_neg h, if_neg h]; rfl

/-- The text before the first occurrence of `sep` (specification-side
description of the first split field). -/
def specFieldBefore (sep : Char) (s : String) : String :=
  String.mk (s.toList.takeWhile (fun c => c ≠ sep))

/-- The text strictly between the first and second occurrences of `sep`
(specification-side description of the second split field). -/
def specFieldBetween (sep : Char) (s : String) : String :=
  String.mk (((s.toList.dropWhile (fun c => c ≠ sep)).drop 1).takeWhile (fun c => c ≠ sep))

theorem jsSplit_get0_field (sep : Char) (s : String) :
    (jsSplit sep s).get? 0 = some (specFieldBefore sep s) := jsSplit_get0 sep s

theorem jsSplit_get1_field (sep : Char) (s : String) :
    (jsSplit sep s).get? 1 =
      if s.toList.contains sep then some (specFieldBetween sep s) else none :=
  jsSplit_get1 sep s

/-- **C6, counterexample.** The decoded payload `a:b:c` contains two
colons — more than one — yet `parseAuthorization` returns the pair
`(a, b)` instead of the absent sentinel; and a `Basic` header whose
payload is not valid base64 makes the function throw rather than return. -/
theorem C6_counterexample :
    parseAuthorization (some "Basic YTpiOmM=") =
      .ok (some { username := "a", password := "b" }) ∧
    (textDecode ((decodeBase64 "YTpiOmM=").getD [])).toList.count ':' = 2 ∧
    parseAuthorization (some "Basic ~") = .error "InvalidCharacterError" :=
  ⟨rfl, by decide, rfl⟩

/-- **C6, amended.** `parseAuthorization` returns a credentials pair exactly
when the `authorization` header is present, its first space-separated field
is `Basic`, the (non-empty) field after the first space decodes as
forgiving-base64, and the decoded payload contains at least one colon with
non-empty text before the first colon (the username) and non-empty text
between the first and second colons (the password) — any further
colon-separated text is discarded.  It throws exactly when the scheme and
payload checks pass but the payload is not valid base64; every other input
yields the absent sentinel. -/
theorem C6_parseAuthorization_characterization (h : Option String) :
    (∀ c : Credentials,
      parseAuthorization h = .ok (some c) ↔
        ∃ a, h = some a ∧
          specFieldBefore ' ' a = "Basic" ∧
          a.toList.contains ' ' = true ∧
          specFieldBetween ' ' a ≠ "" ∧
          ∃ bs, decodeBase64 (specFieldBetween ' ' a) = some bs ∧
            (textDecode bs).toList.contains ':' = true ∧
            c.username = specFieldBefore ':' (textDecode bs) ∧ c.username ≠ "" ∧
            c.password = specFieldBetween ':' (textDecode bs) ∧ c.password ≠ "")
    ∧ ((∃ e, parseAuthorization h = .error e) ↔
        ∃ a, h = some a ∧
          specFieldBefore ' ' a = "Basic" ∧
          a.toList.contains ' ' = true ∧
          specFieldBetween ' ' a ≠ "" ∧
          decodeBase64 (specFieldBetween ' ' a) = none)
    ∧ (parseAuthorization h = .ok none ∨
        (∃ c, parseAuthorization h = .ok (some c)) ∨
        (∃ e, parseAuthorization h = .error e)) := by
  cases h with
  | none =>
    refine ⟨?_, ?_, Or.inl rfl⟩
    · intro c; simp [parseAuthorization]
    · simp [parseAuthorization]
  | some a =>
    by_cases hsp : a.toList.contains ' ' = true
    · by_cases hb : specFieldBefore ' ' a = "Basic"
      · by_cases he : specFieldBetween ' ' a = ""
        · have hres : parseAuthorization (some a) = .ok none := by
            simp only [parseAuthorization]
            rw [jsSplit_get0_field, jsSplit_get1_field, if_pos hsp]
            simp only [Option.getD_some]
            rw [if_pos (Or.inr he)]
          refine ⟨?_, ?_, Or.inl hres⟩
          · intro c
            rw [hres]
            apply iff_of_false (by simp)
            rintro ⟨a', ha', -, -, he', -⟩
            injection ha' with haa; subst haa
            exact he' he
          · apply iff_of_false
            · rintro ⟨e, he'⟩; rw [hres] at he'; exact Except.noConfusion he'
            · rintro ⟨a', ha', -, -, he', -⟩
              injection ha' with haa; subst haa
              exact he' he
        · have hcond : ¬ (specFieldBefore ' ' a ≠ "Basic" ∨ specFieldBetween ' ' a = "") := by
            rintro (hx | hx)
            · exact hx hb
            · exact he hx
          cases hdec : decodeBase64 (specFieldBetween ' ' a) with
          | none =>
            have hres : parseAuthorization (some a) = .error "InvalidCharacterError" := by
              simp only [parseAuthorization]
              rw [jsSplit_get0_field, jsSplit_get1_field, if_pos hsp]
              simp only [Option.getD_some]
              rw [if_neg hcond, hdec]
            refine ⟨?_, ?_, Or.inr (Or.inr ⟨_, hres⟩)⟩
            · intro c
              rw [hres]
              apply iff_of_false (by simp)
              rintro ⟨a', ha', -, -, -, bs, hdec', -⟩
              injection ha' with haa; subst haa
              rw [hdec] at hdec'; exact Option.noConfusion hdec'
            · constructor
              · intro _; exact ⟨a, rfl, hb, hsp, he, hdec⟩
              · intro _; exact ⟨_, hres⟩
          | some bs =>
            by_cases hcol : (textDecode bs).toList.contains ':' = true
            · by_cases hu : specFieldBefore ':' (textDecode bs) = ""
              · have hres : parseAuthorization (some a) = .ok none := by
                  simp only [parseAuthorization]
                  rw [jsSplit_get0_field, jsSplit_get1_field, if_pos hsp]
                  simp only [Option.getD_some]
                  rw [if_neg hcond, hdec]
                  simp only []
                  rw [if_neg (not_not_intro hcol)]
                  rw [jsSplit_get0_field, jsSplit_get1_field, if_pos hcol]
                  simp only [Option.getD_some]
                  rw [if_pos (Or.inl hu)]
                refine ⟨?_, ?_, Or.inl hres⟩
                · intro c
                  rw [hres]
                  apply iff_of_false (by simp)
                  rintro ⟨a', ha', -, -, -, bs', hdec', -, hcu, hcu0, -⟩
                  injection ha' with haa; subst haa
                  rw [hdec] at hdec'; injection hdec' with hbs; subst hbs
                  exact hcu0 (hcu.trans hu)
                · apply iff_of_false
                  · rintro ⟨e, he'⟩; rw [hres] at he'; exact Except.noConfusion he'
                  · rintro ⟨a', ha', -, -, -, hdec'⟩
                    injection ha' with haa; subst haa
                    rw [hdec] at hdec'; exact Option.noConfusion hdec'
              · by_cases hpw : specFieldBetween ':' (textDecode bs) = ""
                · have hres : parseAuthorization (some a) = .ok none := by
                    simp only [parseAuthorization]
                    rw [jsSplit_get0_field, jsSplit_get1_field, if_pos hsp]
                    simp only [Option.getD_some]
                    rw [if_neg hcond, hdec]
                    simp only []
                    rw [if_neg (not_not_intro hcol)]
                    rw [jsSplit_get0_field, jsSplit_get1_field, if_pos hcol]
                    simp only [Option.getD_some]
                    rw [if_pos (Or.inr hpw)]
                  refine ⟨?_, ?_, Or.inl hres⟩
                  · intro c
                    rw [hres]
                    apply iff_of_false (by simp)
                    rintro ⟨a', ha', -, -, -, bs', hdec', -, -, -, hcp, hcp0⟩
                    injection ha' with haa; subst haa
                    rw [hdec] at hdec'; injection hdec' with hbs; subst hbs
                    exact hcp0 (hcp.trans hpw)
                  · apply iff_of_false
                    · rintro ⟨e, he'⟩; rw [hres] at he'; exact Except.noConfusion he'
                    · rintro ⟨a', ha', -, -, -, hdec'⟩
                      injection ha' with haa; subst haa
                      rw [hdec] at hdec'; exact Option.noConfusion hdec'
                · have hres : parseAuthorization (some a) =
                      .ok (some { username := specFieldBefore ':' (textDecode bs),
                                  password := specFieldBetween ':' (textDecode bs) }) := by
                    simp only [parseAuthorization]
                    rw [jsSplit_get0_field, jsSplit_get1_field, if_pos hsp]
                    simp only [Option.getD_some]
                    rw [if_neg hcond, hdec]
                    simp only []
                    rw [if_neg (not_not_intro hcol)]
                    rw [jsSplit_get0_field, jsSplit_get1_field, if_pos hcol]
                    simp only [Option.getD_some]
                    rw [if_neg (by rintro (hx | hx); exacts [hu hx, hpw hx])]
                  refine ⟨?_, ?_, Or.inr (Or.inl ⟨_, hres⟩)⟩
                  · intro c
                    rw [hres]
                    constructor
                    · intro hEq
                      injection hEq with h1
                      injection h1 with h2
                      subst h2
                      exact ⟨a, rfl, hb, hsp, he, bs, hdec, hcol, rfl, hu, rfl, hpw⟩
                    · rintro ⟨a', ha', -, -, -, bs', hdec', -, hcu, -, hcp, -⟩
                      injection ha' with haa; subst haa
                      rw [hdec] at hdec'; injection hdec' with hbs; subst hbs
                      cases c with
                      | mk cu cp =>
                        simp only at hcu hcp
                        rw [hcu, hcp]
                  · apply iff_of_false
                    · rintro ⟨e, he'⟩; rw [hres] at he'; exact Except.noConfusion he'
                    · rintro ⟨a', ha', -, -, -, hdec'⟩
                      injection ha' with haa; subst haa
                      rw [hdec] at hdec'; exact Option.noConfusion hdec'
            · have hres : parseAuthorization (some a) = .ok none := by
                simp only [parseAuthorization]
                rw [jsSplit_get0_field, jsSplit_get1_field, if_pos hsp]
                simp only [Option.getD_some]
                rw [if_neg hcond, hdec]
                simp only []
                rw [if_pos (by simpa using hcol)]
              refine ⟨?_, ?_, Or.inl hres⟩
              · intro c
                rw [hres]
                apply iff_of_false (by simp)
                rintro ⟨a', ha', -, -, -, bs', hdec', hcol', -⟩
                injection ha' with haa; subst haa
                rw [hdec] at hdec'; injection hdec' with hbs; subst hbs
                exact hcol hcol'
              · apply iff_of_false
                · rintro ⟨e, he'⟩; rw [hres] at he'; exact Except.noConfusion he'
                · rintro ⟨a', ha', -, -, -, hdec'⟩
                  injection ha' with haa; subst haa
                  rw [hdec] at hdec'; exact Option.noConfusion hdec'
      · have hres : parseAuthorization (some a) = .ok none := by
          simp only [parseAuthorization]
          rw [jsSplit_get0_field, jsSplit_get1_field, if_pos hsp]
          simp only [Option.getD_some]
          rw [if_pos (Or.inl hb)]
        refine ⟨?_, ?_, Or.inl hres⟩
        · intro c
          rw [hres]
          apply iff_of_false (by simp)
          rintro ⟨a', ha', hb', -⟩
          injection ha' with haa; subst haa
          exact hb hb'
        · apply iff_of_false
          · rintro ⟨e, he'⟩; rw [hres] at he'; exact Except.noConfusion he'
          · rintro ⟨a', ha', hb', -⟩
            injection ha' with haa; subst haa
            exact hb hb'
    · have hres : parseAuthorization (some a) = .ok none := by
        simp only [parseAuthorization]
        rw [jsSplit_get0_field, jsSplit_get1_field, if_neg hsp]
        simp
      refine ⟨?_, ?_, Or.inl hres⟩
      · intro c
        rw [hres]
        apply iff_of_false (by simp)
        rintro ⟨a', ha', -, hsp', -⟩
        injection ha' with haa; subst haa
        exact hsp hsp'
      · apply iff_of_false
        · rintro ⟨e, he'⟩; rw [hres] at he'; exact Except.noConfusion he'
        · rintro ⟨a', ha', -, hsp', -⟩
          injection ha' with haa; subst haa
          exact hsp hsp'

/-! ## Batch response generation (towards C2) -/

theorem action_key_eq (op : String) (url : URLModel) (tok uuid : String) :
    (BatchStore.action op url tok uuid).1 = op ++ "/" ++ uuid := rfl

theorem uploadKey_ne_verifyKey (a b : String) :
    ("upload" ++ "/" ++ a) ≠ ("verify" ++ "/" ++ b) := by
  intro hEq
  have h' := congrArg String.data hEq
  simp only [String.data_append] at h'
  simp at h'

theorem respondList_upload_spec (nowMs : Int) (url : URLModel)
    (gen : Nat → String × String) :
    ∀ (os : List LFSObject) (s : BatchStore) (n : Nat),
      ((BatchStore.respondList nowMs "upload" url gen s n os).1.length = os.length) ∧
      ((BatchStore.respondList nowMs "upload" url gen s n os).2.2.length = 2 * os.length) ∧
      ∀ i o, os.get? i = some o →
        ∃ obj, (BatchStore.respondList nowMs "upload" url gen s n os).1.get? i = some obj ∧
          obj.oid = o.oid ∧ obj.size = o.size ∧
          (alGet obj.actions "upload").isSome = true ∧
          (alGet obj.actions "verify").isSome = true ∧
          ∃ ev1 ev2,
            (BatchStore.respondList nowMs "upload" url gen s n os).2.2.get? (2*i) = some ev1 ∧
            (BatchStore.respondList nowMs "upload" url gen s n os).2.2.get? (2*i+1) = some ev2 ∧
            ev1.object = obj ∧ ev2.object = obj ∧
            ev1.key = "upload" ++ "/" ++ (gen (n+2*i)).2 ∧
            ev2.key = "verify" ++ "/" ++ (gen (n+2*i+1)).2 ∧
            ev1.key ≠ ev2.key := by
  intro os
  induction os with
  | nil =>
    intro s n
    refine ⟨rfl, rfl, ?_⟩
    intro i o h
    simp [List.get?] at h
  | cons o0 rest ih =>
    intro s n
    rw [BatchStore.respondList]
    rw [if_pos rfl]
    simp only []
    obtain ⟨ih1, ih2, ih3⟩ :=
      ih (((s.set nowMs (BatchStore.action "upload" url (gen n).1 (gen n).2).1
            { oid := o0.oid, size := o0.size, authenticated := true,
              actions := [("upload", (BatchStore.action "upload" url (gen n).1 (gen n).2).2),
                          ("verify", (BatchStore.action "verify" url (gen (n+1)).1 (gen (n+1)).2).2)] }).1.set
          nowMs (BatchStore.action "verify" url (gen (n+1)).1 (gen (n+1)).2).1
            { oid := o0.oid, size := o0.size, authenticated := true,
              actions := [("upload", (BatchStore.action "upload" url (gen n).1 (gen n).2).2),
                          ("verify", (BatchStore.action "verify" url (gen (n+1)).1 (gen (n+1)).2).2)] }).1)
        (n + 2)
    refine ⟨by simp [ih1], by simp [ih2]; omega, ?_⟩
    intro i o ho
    cases i with
    | zero =>
      simp only [List.get?] at ho
      injection ho with ho'
      subst ho'
      refine ⟨_, rfl, rfl, rfl, by simp [alGet], by simp [alGet], ?_⟩
      refine ⟨_, _, rfl, rfl, rfl, rfl, ?_, ?_, ?_⟩
      · show (BatchStore.action "upload" url (gen n).1 (gen n).2).1 = _
        rw [action_key_eq]
        try norm_num
      · show (BatchStore.action "verify" url (gen (n+1)).1 (gen (n+1)).2).1 = _
        rw [action_key_eq]
        try norm_num
      · show (BatchStore.action "upload" url (gen n).1 (gen n).2).1 ≠
          (BatchStore.action "verify" url (gen (n+1)).1 (gen (n+1)).2).1
        rw [action_key_eq, action_key_eq]
        exact uploadKey_ne_verifyKey _ _
    | succ i =>
      have ho' : rest.get? i = some o := by simpa [List.get?] using ho
      obtain ⟨obj, hobj, hoid, hsize, hup, hver, ev1, ev2, hev1, hev2, hob1, hob2,
        hk1, hk2, hne⟩ := ih3 i o ho'
      refine ⟨obj, by simpa [List.get?] using hobj, hoid, hsize, hup, hver,
        ev1, ev2, ?_, ?_, hob1, hob2, ?_, ?_, hne⟩
      · have h2 : 2 * (i + 1) = 2 * i + 1 + 1 := by ring
        rw [h2]
        simpa [List.get?] using hev1
      · have h2 : 2 * (i + 1) + 1 = (2 * i + 1) + 1 + 1 := by ring
        rw [h2]
        simpa [List.get?] using hev2
      · have h3 : n + 2 * (i + 1) = n + 2 + 2 * i := by ring
        rw [h3]; exact hk1
      · have h3 : n + 2 * (i + 1) + 1 = n + 2 + 2 * i + 1 := by ring
        rw [h3]; exact hk2

/-- **C2.** For every batch request with operation `upload`, every object in
the response carries both an `upload` and a `verify` action for the
requested oid and size, and the two actions are registered (by two `set`
calls) under two distinct keys, each of the form `{operation}/{uuid}` with
the uuids drawn from the generator. -/
theorem C2_upload_pairs_verify (s : BatchStore) (nowMs : Int) (req : BatchRequest)
    (url : URLModel) (gen : Nat → String × String)
    (hop : req.operation = "upload") :
    ((BatchStore.respond s nowMs req url gen).1.objects.length = req.objects.length) ∧
    ((BatchStore.respond s nowMs req url gen).2.2.length = 2 * req.objects.length) ∧
    ∀ i o, req.objects.get? i = some o →
      ∃ obj, (BatchStore.respond s nowMs req url gen).1.objects.get? i =
          some (BatchResponseObjectOrError.obj obj) ∧
        obj.oid = o.oid ∧ obj.size = o.size ∧
        (alGet obj.actions "upload").isSome = true ∧
        (alGet obj.actions "verify").isSome = true ∧
        ∃ ev1 ev2,
          (BatchStore.respond s nowMs req url gen).2.2.get? (2*i) = some ev1 ∧
          (BatchStore.respond s nowMs req url gen).2.2.get? (2*i+1) = some ev2 ∧
          ev1.object = obj ∧ ev2.object = obj ∧
          ev1.key = "upload" ++ "/" ++ (gen (2*i)).2 ∧
          ev2.key = "verify" ++ "/" ++ (gen (2*i+1)).2 ∧
          ev1.key ≠ ev2.key := by
  obtain ⟨h1, h2, h3⟩ := respondList_upload_spec nowMs url gen req.objects s 0
  unfold BatchStore.respond
  rw [hop]
  refine ⟨by simpa using h1, by simpa using h2, ?_⟩
  intro i o ho
  obtain ⟨obj, hobj, hoid, hsize, hup, hver, ev1, ev2, hev1, hev2, hob1, hob2,
    hk1, hk2, hne⟩ := h3 i o ho
  refine ⟨obj, ?_, hoid, hsize, hup, hver, ev1, ev2, hev1, hev2, hob1, hob2,
    ?_, ?_, hne⟩
  · rw [List.get?_map, hobj]; rfl
  · rw [hk1]; norm_num
  · rw [hk2]; norm_num

def c2wReq : BatchRequest :=
  { objects := [{ oid := "abc", size := 42 }], operation := "upload" }

def c2wGen : Nat → String × String :=
  fun n => ("token" ++ toString n, "uuid" ++ toString n)

/-- Witness for C2 at a concrete one-object upload batch. -/
theorem C2_witness :
    c2wReq.operation = "upload" ∧
    (((BatchStore.respond ⟨[], []⟩ 0 c2wReq
        { protocol := "http:", host := "h", pathname := "/" } c2wGen).1.objects.length =
      c2wReq.objects.length) ∧
    ((BatchStore.respond ⟨[], []⟩ 0 c2wReq
        { protocol := "http:", host := "h", pathname := "/" } c2wGen).2.2.length =
      2 * c2wReq.objects.length) ∧
    ∀ i o, c2wReq.objects.get? i = some o →
      ∃ obj, (BatchStore.respond ⟨[], []⟩ 0 c2wReq
          { protocol := "http:", host := "h", pathname := "/" } c2wGen).1.objects.get? i =
          some (BatchResponseObjectOrError.obj obj) ∧
        obj.oid = o.oid ∧ obj.size = o.size ∧
        (alGet obj.actions "upload").isSome = true ∧
        (alGet obj.actions "verify").isSome = true ∧
        ∃ ev1 ev2,
          (BatchStore.respond ⟨[], []⟩ 0 c2wReq
              { protocol := "http:", host := "h", pathname := "/" } c2wGen).2.2.get? (2*i) =
            some ev1 ∧
          (BatchStore.respond ⟨[], []⟩ 0 c2wReq
              { protocol := "http:", host := "h", pathname := "/" } c2wGen).2.2.get? (2*i+1) =
            some ev2 ∧
          ev1.object = obj ∧ ev2.object = obj ∧
          ev1.key = "upload" ++ "/" ++ (c2wGen (2*i)).2 ∧
          ev2.key = "verify" ++ "/" ++ (c2wGen (2*i+1)).2 ∧
          ev1.key ≠ ev2.key) :=
  ⟨rfl, C2_upload_pairs_verify ⟨[], []⟩ 0 c2wReq
      { protocol := "http:", host := "h", pathname := "/" } c2wGen rfl⟩

/-! ## Routing lemmas -/

theorem transferMatch_inv {p repo operation uuid : String}
    (hm : transferMatch p = some (repo, operation, uuid)) :
    seg4 p = some ("", repo, operation, uuid) ∧ validRepoName repo = true ∧
      operation ≠ "" ∧ uuidSegment uuid = true := by
  unfold transferMatch at hm
  cases hq : seg4 p with
  | none => rw [hq] at hm; cases hm
  | some q =>
    obtain ⟨a, r', o', u'⟩ := q
    rw [hq] at hm
    dsimp only [] at hm
    split_ifs at hm with hcond
    simp only [Option.some.injEq, Prod.mk.injEq] at hm
    obtain ⟨rfl, rfl, rfl⟩ := hm
    obtain ⟨ha, hr, ho, hu⟩ := hcond
    subst ha
    exact ⟨rfl, hr, ho, hu⟩

theorem transferMatch_ne_root {p repo operation uuid : String}
    (hm : transferMatch p = some (repo, operation, uuid)) : p ≠ "/" := by
  intro hp
  subst hp
  obtain ⟨hs, -, -, -⟩ := transferMatch_inv hm
  rw [show seg4 "/" = none from rfl] at hs
  cases hs

theorem batchMatch_none_of_transfer {p repo operation uuid : String}
    (hm : transferMatch p = some (repo, operation, uuid)) :
    batchMatch p = none := by
  obtain ⟨hs, -, -, hu⟩ := transferMatch_inv hm
  unfold batchMatch
  rw [hs]
  dsimp only []
  rw [if_neg]
  rintro ⟨-, -, -, hub⟩
  rw [hub] at hu
  exact absurd hu (by decide)

theorem has_absent (s : BatchStore) (nowMs : Int) (key : String)
    (h : alGet s.store key = none) : BatchStore.has s nowMs key = (false, s) := by
  rw [has_spec, expired_of_absent s nowMs key h]
  simp

theorem expired_true_mono (s : BatchStore) (nowMs now2 : Int) (key : String)
    (h : (s.expired nowMs key).1 = true) (hle : nowMs ≤ now2) :
    (s.expired now2 key).1 = true ∧
      ((s.expired nowMs key).2.expired now2 key).1 = true := by
  cases ho : alGet s.store key with
  | none =>
    have h1 := expired_of_absent s nowMs key ho
    have h2 := expired_of_absent s now2 key ho
    rw [h1]
    exact ⟨by rw [h2], by rw [h2]⟩
  | some o =>
    have hspec := expired_spec s nowMs key o ho
    by_cases hc : nowMs - (alGet s.dates key).getD 0 ≥ entryExpiresIn o * 1000
    · have hc2 : now2 - (alGet s.dates key).getD 0 ≥ entryExpiresIn o * 1000 := by omega
      constructor
      · rw [expired_spec s now2 key o ho, if_pos hc2]
      · rw [hspec, if_pos hc]
        have hdel : alGet (s.delete key).2.store key = none := by
          simp [BatchStore.delete, alGet_alRemove_self]
        rw [expired_of_absent _ now2 key hdel]
    · rw [hspec, if_neg hc] at h
      cases h

theorem handle_cases (cfg : ServerConfig) (s : BatchStore) (nowMs : Int)
    (gen : Nat → String × String) (r : RequestM) :
    BatchServer.handle cfg s nowMs gen r = (.empty 404, s, []) ∨
    ∃ r' : RequestM, r'.url.pathname = r.url.pathname ∧ r'.method = r.method ∧
      r'.headers = r.headers ∧ r'.hasBody = r.hasBody ∧
      r'.batchBody = r.batchBody ∧ r'.verifyBody = r.verifyBody ∧
      BatchServer.handle cfg s nowMs gen r = BatchServer.dispatch cfg s nowMs gen r' := by
  unfold BatchServer.handle
  by_cases hh : cfg.origin.href = cfg.url.href
  · rw [if_pos hh]
    exact Or.inr ⟨r, rfl, rfl, rfl, rfl, rfl, rfl, rfl⟩
  · rw [if_neg hh]
    cases hxh : hGet r "x-forwarded-host" with
    | none =>
      cases hxp : hGet r "x-forwarded-proto" with
      | none =>
        simp only [hxh, hxp]
        split_ifs with hcond
        · exact Or.inl rfl
        · exact Or.inr ⟨{ r with url := r.url }, rfl, rfl, rfl, rfl, rfl, rfl, rfl⟩
      | some pr =>
        simp only [hxh, hxp]
        split_ifs with hcond
        · exact Or.inl rfl
        · exact Or.inr ⟨{ r with url := r.url.setProtocol pr }, rfl, rfl, rfl, rfl, rfl, rfl, rfl⟩
    | some hh' =>
      cases hxp : hGet r "x-forwarded-proto" with
      | none =>
        simp only [hxh, hxp]
        split_ifs with hcond
        · exact Or.inl rfl
        · exact Or.inr ⟨{ r with url := r.url.setHost hh' }, rfl, rfl, rfl, rfl, rfl, rfl, rfl⟩
      | some pr =>
        simp only [hxh, hxp]
        split_ifs with hcond
        · exact Or.inl rfl
        · exact Or.inr ⟨{ r with url := (r.url.setHost hh').setProtocol pr }, rfl, rfl, rfl, rfl, rfl, rfl, rfl⟩

theorem dispatch_transfer (cfg : ServerConfig) (s : BatchStore) (nowMs : Int)
    (gen : Nat → String × String) (r : RequestM) (repo operation uuid : String)
    (hm : transferMatch r.url.pathname = some (repo, operation, uuid)) :
    BatchServer.dispatch cfg s nowMs gen r =
      (if validateId uuid = true then
        (if (BatchStore.has s nowMs (operation ++ "/" ++ uuid)).1 = true then
          (match operation with
           | "download" => BatchServer.download cfg
               (BatchStore.has s nowMs (operation ++ "/" ++ uuid)).2 nowMs r repo
               (operation ++ "/" ++ uuid)
           | "upload" => BatchServer.upload cfg
               (BatchStore.has s nowMs (operation ++ "/" ++ uuid)).2 nowMs r repo
               (operation ++ "/" ++ uuid)
           | "verify" => BatchServer.verify cfg
               (BatchStore.has s nowMs (operation ++ "/" ++ uuid)).2 nowMs r repo
               (operation ++ "/" ++ uuid)
           | _ => (.empty 404, (BatchStore.has s nowMs (operation ++ "/" ++ uuid)).2, []))
        else (.empty 404, (BatchStore.has s nowMs (operation ++ "/" ++ uuid)).2, []))
      else (.empty 404, s, [])) := by
  unfold BatchServer.dispatch
  rw [if_neg (by rintro ⟨-, -, hroot⟩; exact transferMatch_ne_root hm hroot)]
  rw [batchMatch_none_of_transfer hm]
  rw [hm]

/-! ## Handler characterisations on a live key -/

theorem download_run (cfg : ServerConfig) (s : BatchStore) (nowMs : Int)
    (r : RequestM) (repo key : String) (o : BatchResponseObject)
    (hlive : (BatchStore.has s nowMs key).1 = true)
    (ho : alGet s.store key = some o)
    (hme : r.method = "GET") :
    BatchServer.download cfg s nowMs r repo key =
      (if tokenEq (hGet r "authorization") (actionAuth o "download") = true then
         (.delegated (.download (BatchServer.getFile cfg ⟨o.oid, o.size⟩ repo)),
          (s.delete key).2,
          [.download (BatchServer.getFile cfg ⟨o.oid, o.size⟩ repo)])
       else (.json 401 (.message "Invalid token"), (s.delete key).2, [])) := by
  unfold BatchServer.download
  rw [show methodError r "GET" = none from by simp [methodError, hme]]
  rw [get_of_has_true s nowMs key o hlive ho]
  by_cases ht : tokenEq (hGet r "authorization") (actionAuth o "download") = true <;>
    simp [ht]

theorem upload_run (cfg : ServerConfig) (s : BatchStore) (nowMs : Int)
    (r : RequestM) (repo key : String) (o : BatchResponseObject)
    (hlive : (BatchStore.has s nowMs key).1 = true)
    (ho : alGet s.store key = some o)
    (hme : r.method = "PUT") :
    BatchServer.upload cfg s nowMs r repo key =
      (if tokenEq (hGet r "authorization") (actionAuth o "upload") = true then
         (if ¬ r.hasBody = true ∨ hGet r "content-length" ≠ some (toString o.size) then
            (.json 400 (.message "Invalid upload"), (s.delete key).2, [])
          else
            (.delegated (.upload (BatchServer.getFile cfg ⟨o.oid, o.size⟩ repo)),
             (s.delete key).2,
             [.upload (BatchServer.getFile cfg ⟨o.oid, o.size⟩ repo)]))
       else (.json 401 (.message "Invalid token"), (s.delete key).2, [])) := by
  unfold BatchServer.upload
  rw [show methodError r "PUT" = none from by simp [methodError, hme]]
  rw [get_of_has_true s nowMs key o hlive ho]
  by_cases ht : tokenEq (hGet r "authorization") (actionAuth o "upload") = true
  · by_cases hb : ¬ r.hasBody = true ∨ hGet r "content-length" ≠ some (toString o.size) <;>
      simp [ht, hb]
  · simp [ht]

theorem verify_run (cfg : ServerConfig) (s : BatchStore) (nowMs : Int)
    (r : RequestM) (repo key : String) (o : BatchResponseObject)
    (hlive : (BatchStore.has s nowMs key).1 = true)
    (ho : alGet s.store key = some o)
    (hme : r.method = "POST") (hacc : acceptError r = none) :
    BatchServer.verify cfg s nowMs r repo key =
      (if tokenEq (hGet r "authorization") (actionAuth o "verify") = true then
         (match r.verifyBody with
          | none => (.json 422 (.message "Invalid object"), (s.delete key).2, [])
          | some _ =>
            if cfg.check (BatchServer.getFile cfg ⟨o.oid, o.size⟩ repo) = true then
              (.empty 200, (s.delete key).2,
               [.check (BatchServer.getFile cfg ⟨o.oid, o.size⟩ repo)])
            else
              (.json 404 (.message "Object not found"), (s.delete key).2,
               [.check (BatchServer.getFile cfg ⟨o.oid, o.size⟩ repo)]))
       else (.json 401 (.message "Invalid token"), (s.delete key).2, [])) := by
  unfold BatchServer.verify
  rw [show methodError r "POST" = none from by simp [methodError, hme]]
  rw [hacc]
  rw [get_of_has_true s nowMs key o hlive ho]
  by_cases ht : tokenEq (hGet r "authorization") (actionAuth o "verify") = true
  · cases hvb : r.verifyBody with
    | none => simp [ht, hvb]
    | some vo =>
      by_cases hchk : cfg.check (BatchServer.getFile cfg ⟨o.oid, o.size⟩ repo) = true <;>
        simp [ht, hvb, hchk]
  · simp [ht]

theorem dispatch_transfer_ite (cfg : ServerConfig) (s : BatchStore) (nowMs : Int)
    (gen : Nat → String × String) (r : RequestM) (repo operation uuid : String)
    (hm : transferMatch r.url.pathname = some (repo, operation, uuid)) :
    BatchServer.dispatch cfg s nowMs gen r =
      (if validateId uuid = true then
        (if (BatchStore.has s nowMs (operation ++ "/" ++ uuid)).1 = true then
          (if operation = "download" then
             BatchServer.download cfg
               (BatchStore.has s nowMs (operation ++ "/" ++ uuid)).2 nowMs r repo
               (operation ++ "/" ++ uuid)
           else if operation = "upload" then
             BatchServer.upload cfg
               (BatchStore.has s nowMs (operation ++ "/" ++ uuid)).2 nowMs r repo
               (operation ++ "/" ++ uuid)
           else if operation = "verify" then
             BatchServer.verify cfg
               (BatchStore.has s nowMs (operation ++ "/" ++ uuid)).2 nowMs r repo
               (operation ++ "/" ++ uuid)
           else (.empty 404, (BatchStore.has s nowMs (operation ++ "/" ++ uuid)).2, []))
        else (.empty 404, (BatchStore.has s nowMs (operation ++ "/" ++ uuid)).2, []))
      else (.empty 404, s, [])) := by
  rw [dispatch_transfer cfg s nowMs gen r repo operation uuid hm]
  by_cases hv : validateId uuid = true
  · rw [if_pos hv, if_pos hv]
    by_cases hl : (BatchStore.has s nowMs (operation ++ "/" ++ uuid)).1 = true
    · rw [if_pos hl, if_pos hl]
      split
      · rw [if_pos rfl]
      · rw [if_neg (by decide), if_pos rfl]
      · rw [if_neg (by decide), if_neg (by decide), if_pos rfl]
      · rename_i h1 h2 h3
        rw [if_neg h1, if_neg h2, if_neg h3]
    · rw [if_neg hl, if_neg hl]
  · rw [if_neg hv, if_neg hv]

theorem handle_nonproxy (cfg : ServerConfig) (s : BatchStore) (nowMs : Int)
    (gen : Nat → String × String) (r : RequestM)
    (hhref : cfg.origin.href = cfg.url.href) :
    BatchServer.handle cfg s nowMs gen r = BatchServer.dispatch cfg s nowMs gen r := by
  unfold BatchServer.handle
  rw [if_pos hhref]

theorem handle_absent_404 (cfg : ServerConfig) (s : BatchStore) (nowMs : Int)
    (gen : Nat → String × String) (r : RequestM) (repo operation uuid : String)
    (hm : transferMatch r.url.pathname = some (repo, operation, uuid))
    (habs : alGet s.store (operation ++ "/" ++ uuid) = none) :
    BatchServer.handle cfg s nowMs gen r = (.empty 404, s, []) := by
  rcases handle_cases cfg s nowMs gen r with h | ⟨r', hp, -, -, -, -, -, hd⟩
  · exact h
  · rw [hd]
    have hm' : transferMatch r'.url.pathname = some (repo, operation, uuid) := by
      rw [hp]; exact hm
    rw [dispatch_transfer_ite cfg s nowMs gen r' repo operation uuid hm']
    by_cases hv : validateId uuid = true
    · rw [if_pos hv, has_absent s nowMs _ habs]
      simp
    · rw [if_neg hv]

/-- **C10.** A download, upload, or verify request to a live action key with
a matching method (and accept header, for verify) but a mismatched bearer
token is answered 401 — yet the pending entry is deleted before the token
comparison, so any subsequent request to the same key, with any token,
gets the anonymous not-found. -/
theorem C10_failed_token_consumes (cfg : ServerConfig) (s : BatchStore)
    (nowMs : Int) (gen : Nat → String × String) (r : RequestM)
    (repo operation uuid : String) (o : BatchResponseObject)
    (hhref : cfg.origin.href = cfg.url.href)
    (hm : transferMatch r.url.pathname = some (repo, operation, uuid))
    (hvid : validateId uuid = true)
    (hlive : (BatchStore.has s nowMs (operation ++ "/" ++ uuid)).1 = true)
    (ho : alGet s.store (operation ++ "/" ++ uuid) = some o)
    (hop : (operation = "download" ∧ r.method = "GET") ∨
           (operation = "upload" ∧ r.method = "PUT") ∨
           (operation = "verify" ∧ r.method = "POST" ∧ acceptError r = none))
    (htok : tokenEq (hGet r "authorization") (actionAuth o operation) = false) :
    (BatchServer.handle cfg s nowMs gen r).1 = .json 401 (.message "Invalid token") ∧
    alGet (BatchServer.handle cfg s nowMs gen r).2.1.store (operation ++ "/" ++ uuid) = none ∧
    ∀ (r2 : RequestM) (now2 : Int) (repo2 : String),
      transferMatch r2.url.pathname = some (repo2, operation, uuid) →
      (BatchServer.handle cfg (BatchServer.handle cfg s nowMs gen r).2.1 now2 gen r2).1 =
        .empty 404 := by
  obtain ⟨-, hs2, -⟩ := has_true_inv s nowMs _ hlive
  have hstep : BatchServer.handle cfg s nowMs gen r =
      (.json 401 (.message "Invalid token"), (s.delete (operation ++ "/" ++ uuid)).2, []) := by
    rw [handle_nonproxy cfg s nowMs gen r hhref,
      dispatch_transfer_ite cfg s nowMs gen r repo operation uuid hm,
      if_pos hvid, if_pos hlive, hs2]
    rcases hop with ⟨rfl, hme⟩ | ⟨rfl, hme⟩ | ⟨rfl, hme, hacc⟩
    · rw [if_pos rfl]
      rw [download_run cfg s nowMs r repo _ o hlive ho hme]
      rw [if_neg (by simp [htok])]
    · rw [if_neg (by decide), if_pos rfl]
      rw [upload_run cfg s nowMs r repo _ o hlive ho hme]
      rw [if_neg (by simp [htok])]
    · rw [if_neg (by decide), if_neg (by decide), if_pos rfl]
      rw [verify_run cfg s nowMs r repo _ o hlive ho hme hacc]
      rw [if_neg (by simp [htok])]
  have habs2 : alGet (BatchServer.handle cfg s nowMs gen r).2.1.store
      (operation ++ "/" ++ uuid) = none := by
    rw [hstep]
    simp [BatchStore.delete, alGet_alRemove_self]
  refine ⟨by rw [hstep], habs2, ?_⟩
  intro r2 now2 repo2 hm2
  rw [handle_absent_404 cfg _ now2 gen r2 repo2 operation uuid hm2 habs2]

/-- **C4.** A PUT to a live upload action key with a matching token is
rejected with 400 — and the adapter's `upload` is never invoked — whenever
the body is absent or the `content-length` header does not equal the
registered object's size rendered in decimal; the upload is delegated to
the adapter exactly when the body is present and the lengths agree. -/
theorem C4_upload_length_guard (cfg : ServerConfig) (s : BatchStore)
    (nowMs : Int) (gen : Nat → String × String) (r : RequestM)
    (repo uuid : String) (o : BatchResponseObject)
    (hhref : cfg.origin.href = cfg.url.href)
    (hm : transferMatch r.url.pathname = some (repo, "upload", uuid))
    (hvid : validateId uuid = true)
    (hlive : (BatchStore.has s nowMs ("upload" ++ "/" ++ uuid)).1 = true)
    (ho : alGet s.store ("upload" ++ "/" ++ uuid) = some o)
    (hme : r.method = "PUT")
    (htok : tokenEq (hGet r "authorization") (actionAuth o "upload") = true) :
    ((¬ r.hasBody = true ∨ hGet r "content-length" ≠ some (toString o.size)) →
      (BatchServer.handle cfg s nowMs gen r).1 = .json 400 (.message "Invalid upload") ∧
      (BatchServer.handle cfg s nowMs gen r).2.2 = []) ∧
    (r.hasBody = true ∧ hGet r "content-length" = some (toString o.size) →
      (BatchServer.handle cfg s nowMs gen r).1 =
        .delegated (.upload (BatchServer.getFile cfg ⟨o.oid, o.size⟩ repo)) ∧
      (BatchServer.handle cfg s nowMs gen r).2.2 =
        [.upload (BatchServer.getFile cfg ⟨o.oid, o.size⟩ repo)]) := by
  obtain ⟨-, hs2, -⟩ := has_true_inv s nowMs _ hlive
  have hstep : BatchServer.handle cfg s nowMs gen r =
      BatchServer.upload cfg s nowMs r repo ("upload" ++ "/" ++ uuid) := by
    rw [handle_nonproxy cfg s nowMs gen r hhref,
      dispatch_transfer_ite cfg s nowMs gen r repo "upload" uuid hm,
      if_pos hvid, if_pos hlive, hs2]
    rw [if_neg (by decide), if_pos rfl]
  rw [hstep, upload_run cfg s nowMs r repo _ o hlive ho hme, if_pos htok]
  constructor
  · intro hbad
    rw [if_pos hbad]
    exact ⟨rfl, rfl⟩
  · rintro ⟨hb, hcl⟩
    rw [if_neg (by rintro (hx | hx); exacts [hx hb, hx hcl])]
    exact ⟨rfl, rfl⟩

/-- **C9.** For a verify POST that passes method, accept, token and
body-shape checks, the existence check delegated to the adapter uses only
the token-bound entry's oid and size: two such requests that differ only in
their (shape-valid) body values produce identical results, the adapter is
consulted exactly once on the token-bound file, and the response is 200 or
404 according to that check alone. -/
theorem C9_verify_token_bound (cfg : ServerConfig) (s : BatchStore)
    (nowMs : Int) (gen : Nat → String × String) (r1 r2 : RequestM)
    (repo uuid : String) (o : BatchResponseObject) (o1 o2 : LFSObject)
    (hhref : cfg.origin.href = cfg.url.href)
    (hm : transferMatch r1.url.pathname = some (repo, "verify", uuid))
    (hvid : validateId uuid = true)
    (hlive : (BatchStore.has s nowMs ("verify" ++ "/" ++ uuid)).1 = true)
    (ho : alGet s.store ("verify" ++ "/" ++ uuid) = some o)
    (hme : r1.method = "POST") (hacc : acceptError r1 = none)
    (htok : tokenEq (hGet r1 "authorization") (actionAuth o "verify") = true)
    (hb1 : r1.verifyBody = some o1)
    (hr2 : r2 = { r1 with verifyBody := some o2 }) :
    BatchServer.handle cfg s nowMs gen r1 = BatchServer.handle cfg s nowMs gen r2 ∧
    (BatchServer.handle cfg s nowMs gen r1).2.2 =
      [.check (BatchServer.getFile cfg ⟨o.oid, o.size⟩ repo)] ∧
    (BatchServer.handle cfg s nowMs gen r1).1 =
      (if cfg.check (BatchServer.getFile cfg ⟨o.oid, o.size⟩ repo) = true then .empty 200
       else .json 404 (.message "Object not found")) := by
  subst hr2
  obtain ⟨-, hs2, -⟩ := has_true_inv s nowMs _ hlive
  have hrun : ∀ (rr : RequestM) (oo : LFSObject),
      rr.url.pathname = r1.url.pathname → rr.method = r1.method →
      rr.headers = r1.headers → rr.verifyBody = some oo →
      BatchServer.handle cfg s nowMs gen rr =
        (if cfg.check (BatchServer.getFile cfg ⟨o.oid, o.size⟩ repo) = true then
          (.empty 200, (s.delete ("verify" ++ "/" ++ uuid)).2,
           [.check (BatchServer.getFile cfg ⟨o.oid, o.size⟩ repo)])
        else
          (.json 404 (.message "Object not found"),
           (s.delete ("verify" ++ "/" ++ uuid)).2,
           [.check (BatchServer.getFile cfg ⟨o.oid, o.size⟩ repo)])) := by
    intro rr oo hup hmm hhh hvv
    have hmr : transferMatch rr.url.pathname = some (repo, "verify", uuid) := by
      rw [hup]; exact hm
    have haccr : acceptError rr = none := by
      unfold acceptError hGet at hacc ⊢
      rw [hhh]; exact hacc
    rw [handle_nonproxy cfg s nowMs gen rr hhref,
      dispatch_transfer_ite cfg s nowMs gen rr repo "verify" uuid hmr,
      if_pos hvid, if_pos hlive, hs2]
    rw [if_neg (by decide), if_neg (by decide), if_pos rfl]
    rw [verify_run cfg s nowMs rr repo _ o hlive ho (by rw [hmm]; exact hme) haccr]
    rw [if_pos (by unfold hGet; rw [hhh]; exact htok)]
    rw [hvv]
  have h1 := hrun r1 o1 rfl rfl rfl hb1
  have h2 := hrun { r1 with verifyBody := some o2 } o2 rfl rfl rfl rfl
  refine ⟨h1.trans h2.symm, ?_, ?_⟩
  · rw [h1]
    by_cases hchk : cfg.check (BatchServer.getFile cfg ⟨o.oid, o.size⟩ repo) = true
    · rw [if_pos hchk]
    · rw [if_neg hchk]
  · rw [h1]
    by_cases hchk : cfg.check (BatchServer.getFile cfg ⟨o.oid, o.size⟩ repo) = true
    · rw [if_pos hchk, if_pos hchk]
    · rw [if_neg hchk, if_neg hchk]

/-! ## Consumption lemmas: a successful redemption leaves the key deleted -/

theorem methodError_some {r : RequestM} {m : String} {e : ResponseOut}
    (h : methodError r m = some e) : e = .json 405 (.message "Invalid method") := by
  unfold methodError at h
  split_ifs at h
  injection h with h'
  exact h'.symm

theorem acceptError_some {r : RequestM} {e : ResponseOut}
    (h : acceptError r = some e) : e = .json 406 (.message "Invalid accept header") := by
  unfold acceptError at h
  cases hA : hGet r "accept" with
  | none => rw [hA] at h; injection h with h'; exact h'.symm
  | some a =>
    rw [hA] at h
    dsimp only [] at h
    split_ifs at h
    injection h with h'
    exact h'.symm

theorem download_consumes (cfg : ServerConfig) (s : BatchStore) (nowMs : Int)
    (r : RequestM) (repo key : String)
    (h : (∃ c, (BatchServer.download cfg s nowMs r repo key).1 = .delegated c) ∨
      (BatchServer.download cfg s nowMs r repo key).1 = .empty 200) :
    alGet (BatchServer.download cfg s nowMs r repo key).2.1.store key = none := by
  unfold BatchServer.download at h ⊢
  rcases hmd : methodError r "GET" with _ | e
  · rw [hmd] at h
    rcases hg : BatchStore.get s nowMs key with ⟨og, s1⟩
    rw [hg] at h
    cases og with
    | none => simp [BatchStore.delete, alGet_alRemove_self]
    | some transfer =>
      dsimp only [] at h ⊢
      split <;> simp [BatchStore.delete, alGet_alRemove_self]
  · rw [hmd] at h
    rw [methodError_some hmd] at h
    simp at h

theorem upload_consumes (cfg : ServerConfig) (s : BatchStore) (nowMs : Int)
    (r : RequestM) (repo key : String)
    (h : (∃ c, (BatchServer.upload cfg s nowMs r repo key).1 = .delegated c) ∨
      (BatchServer.upload cfg s nowMs r repo key).1 = .empty 200) :
    alGet (BatchServer.upload cfg s nowMs r repo key).2.1.store key = none := by
  unfold BatchServer.upload at h ⊢
  rcases hmd : methodError r "PUT" with _ | e
  · rw [hmd] at h
    rcases hg : BatchStore.get s nowMs key with ⟨og, s1⟩
    rw [hg] at h
    cases og with
    | none => simp [BatchStore.delete, alGet_alRemove_self]
    | some transfer =>
      dsimp only [] at h ⊢
      split
      · simp [BatchStore.delete, alGet_alRemove_self]
      · split <;> simp [BatchStore.delete, alGet_alRemove_self]
  · rw [hmd] at h
    rw [methodError_some hmd] at h
    simp at h

theorem verify_consumes (cfg : ServerConfig) (s : BatchStore) (nowMs : Int)
    (r : RequestM) (repo key : String)
    (h : (∃ c, (BatchServer.verify cfg s nowMs r repo key).1 = .delegated c) ∨
      (BatchServer.verify cfg s nowMs r repo key).1 = .empty 200) :
    alGet (BatchServer.verify cfg s nowMs r repo key).2.1.store key = none := by
  unfold BatchServer.verify at h ⊢
  rcases hmd : methodError r "POST" with _ | e
  · rw [hmd] at h
    rcases hac : acceptError r with _ | e2
    · rw [hac] at h
      rcases hg : BatchStore.get s nowMs key with ⟨og, s1⟩
      rw [hg] at h
      cases og with
      | none => simp [BatchStore.delete, alGet_alRemove_self]
      | some transfer =>
        dsimp only [] at h ⊢
        split
        · simp [BatchStore.delete, alGet_alRemove_self]
        · split <;> [skip; split] <;>
            simp [BatchStore.delete, alGet_alRemove_self]
    · rw [hac] at h
      rw [acceptError_some hac] at h
      simp at h
  · rw [hmd] at h
    rw [methodError_some hmd] at h
    simp at h

theorem has_false_of_dead (s : BatchStore) (nowMs : Int) (key : String)
    (h : (s.expired nowMs key).1 = true) :
    BatchStore.has s nowMs key = (false, (s.expired nowMs key).2) := by
  rw [has_spec, if_pos h]

/-- **C1.** For a request whose URL matches a transfer action route
`{repo}/{operation}/{uuid}`: (a) any successful redemption (a response
delegated to the adapter, or verify's empty 200) leaves the action key
deleted from the store; (b) an absent key is expired at every instant; and
(c) once the key is expired — whether consumed, timed out, or never issued
— the request is answered with the anonymous `Response(null, 404)`, no
adapter call is made, and the key stays expired at every later instant,
making consumed, expired and never-issued keys indistinguishable,
regardless of the token presented. -/
theorem C1_single_use_ttl_not_found (cfg : ServerConfig) (s : BatchStore)
    (nowMs : Int) (gen : Nat → String × String) (r : RequestM)
    (repo operation uuid : String)
    (hm : transferMatch r.url.pathname = some (repo, operation, uuid)) :
    (((∃ c, (BatchServer.handle cfg s nowMs gen r).1 = .delegated c) ∨
       (BatchServer.handle cfg s nowMs gen r).1 = .empty 200) →
      alGet (BatchServer.handle cfg s nowMs gen r).2.1.store
        (operation ++ "/" ++ uuid) = none) ∧
    (alGet s.store (operation ++ "/" ++ uuid) = none →
      (s.expired nowMs (operation ++ "/" ++ uuid)).1 = true) ∧
    ((s.expired nowMs (operation ++ "/" ++ uuid)).1 = true →
      (BatchServer.handle cfg s nowMs gen r).1 = .empty 404 ∧
      (BatchServer.handle cfg s nowMs gen r).2.2 = [] ∧
      ∀ now2 : Int, nowMs ≤ now2 →
        ((BatchServer.handle cfg s nowMs gen r).2.1.expired now2
          (operation ++ "/" ++ uuid)).1 = true) := by
  refine ⟨?_, ?_, ?_⟩
  · -- (a) successful redemption consumes the key
    intro hsuc
    rcases handle_cases cfg s nowMs gen r with hcase | ⟨r', hp, -, -, -, -, -, hd⟩
    · rw [hcase] at hsuc ⊢
      rcases hsuc with ⟨c, hc⟩ | hc <;> simp at hc
    · rw [hd] at hsuc ⊢
      have hm' : transferMatch r'.url.pathname = some (repo, operation, uuid) := by
        rw [hp]; exact hm
      rw [dispatch_transfer_ite cfg s nowMs gen r' repo operation uuid hm'] at hsuc ⊢
      by_cases hv : validateId uuid = true
      · rw [if_pos hv] at hsuc ⊢
        by_cases hl : (BatchStore.has s nowMs (operation ++ "/" ++ uuid)).1 = true
        · rw [if_pos hl] at hsuc ⊢
          by_cases h1 : operation = "download"
          · subst h1
            rw [if_pos rfl] at hsuc ⊢
            exact download_consumes cfg _ nowMs r' repo _ hsuc
          · rw [if_neg h1] at hsuc ⊢
            by_cases h2 : operation = "upload"
            · subst h2
              rw [if_pos rfl] at hsuc ⊢
              exact upload_consumes cfg _ nowMs r' repo _ hsuc
            · rw [if_neg h2] at hsuc ⊢
              by_cases h3 : operation = "verify"
              · subst h3
                rw [if_pos rfl] at hsuc ⊢
                exact verify_consumes cfg _ nowMs r' repo _ hsuc
              · rw [if_neg h3] at hsuc ⊢
                rcases hsuc with ⟨c, hc⟩ | hc <;> simp at hc
        · rw [if_neg hl] at hsuc ⊢
          rcases hsuc with ⟨c, hc⟩ | hc <;> simp at hc
      · rw [if_neg hv] at hsuc ⊢
        rcases hsuc with ⟨c, hc⟩ | hc <;> simp at hc
  · -- (b) absent keys are expired
    intro habs
    rw [expired_of_absent s nowMs _ habs]
  · -- (c) expired keys give the anonymous 404 and stay expired
    intro hdead
    rcases handle_cases cfg s nowMs gen r with hcase | ⟨r', hp, -, -, -, -, -, hd⟩
    · rw [hcase]
      exact ⟨rfl, rfl, fun now2 hle => (expired_true_mono s nowMs now2 _ hdead hle).1⟩
    · rw [hd]
      have hm' : transferMatch r'.url.pathname = some (repo, operation, uuid) := by
        rw [hp]; exact hm
      rw [dispatch_transfer_ite cfg s nowMs gen r' repo operation uuid hm']
      by_cases hv : validateId uuid = true
      · rw [if_pos hv]
        have hhas := has_false_of_dead s nowMs (operation ++ "/" ++ uuid) hdead
        rw [if_neg (by rw [hhas]; simp)]
        rw [hhas]
        exact ⟨rfl, rfl, fun now2 hle =>
          (expired_true_mono s nowMs now2 _ hdead hle).2⟩
      · rw [if_neg hv]
        exact ⟨rfl, rfl, fun now2 hle => (expired_true_mono s nowMs now2 _ hdead hle).1⟩

/-! ## Batch route lemmas (towards C5) -/

theorem batchMatch_ne_root {p repo : String} (hm : batchMatch p = some repo) :
    p ≠ "/" := by
  intro hp
  subst hp
  rw [show batchMatch "/" = none from rfl] at hm
  cases hm

theorem dispatch_batch (cfg : ServerConfig) (s : BatchStore) (nowMs : Int)
    (gen : Nat → String × String) (r : RequestM) (repo : String)
    (hm : batchMatch r.url.pathname = some repo) :
    BatchServer.dispatch cfg s nowMs gen r = BatchServer.batch cfg s nowMs gen r repo := by
  unfold BatchServer.dispatch
  rw [if_neg (by rintro ⟨-, -, hroot⟩; exact batchMatch_ne_root hm hroot), hm]

/-- **C5.** For a valid download batch, each requested object whose adapter
existence check fails is replaced, in place, by an object with the same oid
and size plus a 404 error stanza, while siblings whose check succeeds are
returned unchanged; an upload batch performs no existence check at all. -/
theorem C5_download_existence_checks (cfg : ServerConfig) (s : BatchStore)
    (nowMs : Int) (gen : Nat → String × String) (r : RequestM)
    (repo : String) (body : BatchRequest)
    (hhref : cfg.origin.href = cfg.url.href)
    (hm : batchMatch r.url.pathname = some repo)
    (hme : r.method = "POST") (hacc : acceptError r = none)
    (hauth : parseAuthorization (hGet r "authorization") =
      .ok (some { username := cfg.username, password := cfg.password }))
    (hbody : r.batchBody = some body) :
    (body.operation = "download" →
      ∃ b : BatchResponse,
        BatchServer.handle cfg s nowMs gen r =
          (.json 200 (.batch b),
           (BatchStore.respond s nowMs body (joinURL repo cfg.origin) gen).2.1,
           (BatchStore.respond s nowMs body (joinURL repo cfg.origin) gen).1.objects.map
             (fun ro => .check (BatchServer.getFile cfg ⟨ro.oidOf, ro.sizeOf⟩ repo))) ∧
        b.hash_algo = "sha256" ∧ b.transfer = "basic" ∧
        b.objects.length =
          (BatchStore.respond s nowMs body (joinURL repo cfg.origin) gen).1.objects.length ∧
        ∀ i ro,
          (BatchStore.respond s nowMs body (joinURL repo cfg.origin) gen).1.objects.get? i =
            some ro →
          (cfg.check (BatchServer.getFile cfg ⟨ro.oidOf, ro.sizeOf⟩ repo) = true →
            b.objects.get? i = some ro) ∧
          (cfg.check (BatchServer.getFile cfg ⟨ro.oidOf, ro.sizeOf⟩ repo) = false →
            b.objects.get? i = some (.err ro.oidOf ro.sizeOf 404 "Object does not exist"))) ∧
    (body.operation = "upload" →
      BatchServer.handle cfg s nowMs gen r =
        (.json 200 (.batch (BatchStore.respond s nowMs body (joinURL repo cfg.origin) gen).1),
         (BatchStore.respond s nowMs body (joinURL repo cfg.origin) gen).2.1, [])) := by
  have hstep : BatchServer.handle cfg s nowMs gen r =
      BatchServer.batch cfg s nowMs gen r repo := by
    rw [handle_nonproxy cfg s nowMs gen r hhref, dispatch_batch cfg s nowMs gen r repo hm]
  constructor
  · intro hop
    refine ⟨{ hash_algo := "sha256", transfer := "basic",
              objects := (BatchStore.respond s nowMs body (joinURL repo cfg.origin) gen).1.objects.map
                (fun ro =>
                  if cfg.check (BatchServer.getFile cfg ⟨ro.oidOf, ro.sizeOf⟩ repo) = true then ro
                  else .err (BatchServer.getFile cfg ⟨ro.oidOf, ro.sizeOf⟩ repo).oid
                    (BatchServer.getFile cfg ⟨ro.oidOf, ro.sizeOf⟩ repo).size
                    404 "Object does not exist") }, ?_, rfl, rfl, by rw [List.length_map], ?_⟩
    · rw [hstep]
      unfold BatchServer.batch
      rw [show methodError r "POST" = none from by simp [methodError, hme], hacc, hauth]
      dsimp only []
      rw [if_neg (by simp)]
      rw [hbody]
      dsimp only []
      rw [if_neg (by rw [hop]; intro hx; exact hx (Or.inl rfl))]
      rw [if_pos hop]
      have hresp : (BatchStore.respond s nowMs body (joinURL repo cfg.origin) gen).1.hash_algo
          = "sha256" := rfl
      have htr : (BatchStore.respond s nowMs body (joinURL repo cfg.origin) gen).1.transfer
          = "basic" := rfl
      rfl
    · intro i ro hro
      constructor
      · intro hchk
        rw [List.get?_map, hro]
        simp only [Option.map_some']
        rw [if_pos hchk]
      · intro hchk
        rw [List.get?_map, hro]
        simp only [Option.map_some']
        rw [if_neg (by simp [hchk])]
        rfl
  · intro hop
    rw [hstep]
    unfold BatchServer.batch
    rw [show methodError r "POST" = none from by simp [methodError, hme], hacc, hauth]
    dsimp only []
    rw [if_neg (by simp)]
    rw [hbody]
    dsimp only []
    rw [if_neg (by rw [hop]; intro hx; exact hx (Or.inr rfl))]
    rw [if_neg (by rw [hop]; intro hx; exact absurd hx (by decide))]

/-! ## C7: reverse-proxy guard -/

/-- The effective URL after the reverse-proxy header rewrite in `handle`. -/
def forwardedURL (r : RequestM) : URLModel :=
  let url1 := match hGet r "x-forwarded-host" with
    | some h => r.url.setHost h
    | none => r.url
  match hGet r "x-forwarded-proto" with
  | some p => url1.setProtocol p
  | none => url1

def c7cfg : ServerConfig :=
  { url := { protocol := "http:", host := "localhost:8000", pathname := "/" },
    origin := { protocol := "https:", host := "example.com", pathname := "/" },
    fsRoot := { protocol := "file:", host := "", pathname := "/data" },
    username := "u", password := "p", webgui := false, hasWeb := false,
    check := fun _ => false }

def c7req : RequestM :=
  { url := { protocol := "http:", host := "localhost:8000",
             pathname := "/repo/objects/batch" },
    method := "GET",
    headers := [("x-forwarded-host", "example.com:8443"),
                ("x-forwarded-proto", "https")],
    hasBody := false, batchBody := none, verifyBody := none }

def c7gen : Nat → String × String := fun _ => ("", "")

/-- **C7, counterexample.** In proxy mode, with `x-forwarded-host`
`example.com:8443` against origin `https://example.com`, the rewritten
`host` differs from the origin's host (the claim then demands 404), yet the
server proceeds to route matching and answers 405 to a GET on the batch
route: the comparison uses `hostname` (port stripped), not the host. -/
theorem C7_counterexample :
    (forwardedURL c7req).host ≠ c7cfg.origin.host ∧
    (forwardedURL c7req).hostname = c7cfg.origin.hostname ∧
    (forwardedURL c7req).protocol = c7cfg.origin.protocol ∧
    (BatchServer.handle c7cfg ⟨[], []⟩ 0 c7gen c7req).1.statusOf = some 405 :=
  ⟨by decide, by decide, by decide, by decide⟩

/-- **C7, amended.** When the configured public origin differs from the
local bind address, the effective host and scheme are rewritten from the
`x-forwarded-host` and `x-forwarded-proto` headers (when present) before
route matching, and the request is answered with the empty 404 unless the
rewritten URL's *hostname* — the host with any `:port` suffix ignored —
and protocol equal the configured origin's exactly; when they do, routing
proceeds on the rewritten request. -/
theorem C7_proxy_guard (cfg : ServerConfig) (s : BatchStore) (nowMs : Int)
    (gen : Nat → String × String) (r : RequestM)
    (hproxy : cfg.origin.href ≠ cfg.url.href) :
    ((cfg.origin.hostname ≠ (forwardedURL r).hostname ∨
      cfg.origin.protocol ≠ (forwardedURL r).protocol) →
      BatchServer.handle cfg s nowMs gen r = (.empty 404, s, [])) ∧
    (cfg.origin.hostname = (forwardedURL r).hostname ∧
      cfg.origin.protocol = (forwardedURL r).protocol →
      BatchServer.handle cfg s nowMs gen r =
        BatchServer.dispatch cfg s nowMs gen { r with url := forwardedURL r }) := by
  unfold BatchServer.handle forwardedURL
  rw [if_neg hproxy]
  cases hxh : hGet r "x-forwarded-host" <;> cases hxp : hGet r "x-forwarded-proto" <;>
    exact ⟨fun hcond => by rw [if_pos hcond],
           fun h12 => by rw [if_neg (by rintro (hx | hx); exacts [hx h12.1, hx h12.2])]⟩

/-! ## Concrete witnesses for the server-level claims -/

def wUrl : URLModel := { protocol := "http:", host := "localhost:8000", pathname := "/" }

def wCfg : ServerConfig :=
  { url := wUrl, origin := wUrl,
    fsRoot := { protocol := "file:", host := "", pathname := "/data" },
    username := "u", password := "p", webgui := false, hasWeb := false,
    check := fun _ => true }

def wGen : Nat → String × String := fun n => ("tok" ++ toString n, "u" ++ toString n)

def wUuid : String := "12345678-1234-4123-8123-123456789010"

def wC1req : RequestM :=
  { url := { wUrl with pathname := "/repo/download/" ++ wUuid }, method := "GET",
    headers := [], hasBody := false, batchBody := none, verifyBody := none }

/-- Witness for C1 at a concrete empty store and download-route request. -/
theorem C1_witness :
    transferMatch wC1req.url.pathname = some ("repo", "download", wUuid) ∧
    ((((∃ c, (BatchServer.handle wCfg ⟨[], []⟩ 0 wGen wC1req).1 = .delegated c) ∨
       (BatchServer.handle wCfg ⟨[], []⟩ 0 wGen wC1req).1 = .empty 200) →
      alGet (BatchServer.handle wCfg ⟨[], []⟩ 0 wGen wC1req).2.1.store
        ("download" ++ "/" ++ wUuid) = none) ∧
    (alGet (⟨[], []⟩ : BatchStore).store ("download" ++ "/" ++ wUuid) = none →
      ((⟨[], []⟩ : BatchStore).expired 0 ("download" ++ "/" ++ wUuid)).1 = true) ∧
    (((⟨[], []⟩ : BatchStore).expired 0 ("download" ++ "/" ++ wUuid)).1 = true →
      (BatchServer.handle wCfg ⟨[], []⟩ 0 wGen wC1req).1 = .empty 404 ∧
      (BatchServer.handle wCfg ⟨[], []⟩ 0 wGen wC1req).2.2 = [] ∧
      ∀ now2 : Int, (0 : Int) ≤ now2 →
        ((BatchServer.handle wCfg ⟨[], []⟩ 0 wGen wC1req).2.1.expired now2
          ("download" ++ "/" ++ wUuid)).1 = true)) :=
  ⟨by decide,
   C1_single_use_ttl_not_found wCfg ⟨[], []⟩ 0 wGen wC1req "repo" "download" wUuid
     (by decide)⟩

def wDObj : BatchResponseObject :=
  { oid := "abc", size := 42, authenticated := true,
    actions := [("download",
      { expires_in := 3600, header := [("authorization", "Bearer tok0")], href := "" })] }

def wDStore : BatchStore :=
  { store := [("download" ++ "/" ++ wUuid, wDObj)],
    dates := [("download" ++ "/" ++ wUuid, 0)] }

def wC10req : RequestM :=
  { url := { wUrl with pathname := "/repo/download/" ++ wUuid }, method := "GET",
    headers := [("authorization", "Bearer BAD")], hasBody := false,
    batchBody := none, verifyBody := none }

/-- Witness for C10: a wrong-token GET on a live download key. -/
theorem C10_witness :
    wCfg.origin.href = wCfg.url.href ∧
    transferMatch wC10req.url.pathname = some ("repo", "download", wUuid) ∧
    validateId wUuid = true ∧
    (BatchStore.has wDStore 10 ("download" ++ "/" ++ wUuid)).1 = true ∧
    alGet wDStore.store ("download" ++ "/" ++ wUuid) = some wDObj ∧
    (("download" = "download" ∧ wC10req.method = "GET") ∨
     ("download" = "upload" ∧ wC10req.method = "PUT") ∨
     ("download" = "verify" ∧ wC10req.method = "POST" ∧ acceptError wC10req = none)) ∧
    tokenEq (hGet wC10req "authorization") (actionAuth wDObj "download") = false ∧
    ((BatchServer.handle wCfg wDStore 10 wGen wC10req).1 =
        .json 401 (.message "Invalid token") ∧
      alGet (BatchServer.handle wCfg wDStore 10 wGen wC10req).2.1.store
        ("download" ++ "/" ++ wUuid) = none ∧
      ∀ (r2 : RequestM) (now2 : Int) (repo2 : String),
        transferMatch r2.url.pathname = some (repo2, "download", wUuid) →
        (BatchServer.handle wCfg
          (BatchServer.handle wCfg wDStore 10 wGen wC10req).2.1 now2 wGen r2).1 =
          .empty 404) :=
  ⟨by decide, by decide, by decide, by decide, by decide, by decide, by decide,
   C10_failed_token_consumes wCfg wDStore 10 wGen wC10req "repo" "download" wUuid wDObj
     (by decide) (by decide) (by decide) (by decide) (by decide) (by decide) (by decide)⟩

def wUObj : BatchResponseObject :=
  { oid := "abc", size := 42, authenticated := true,
    actions := [("upload",
      { expires_in := 3600, header := [("authorization", "Bearer tokU")], href := "" })] }

def wUStore : BatchStore :=
  { store := [("upload" ++ "/" ++ wUuid, wUObj)],
    dates := [("upload" ++ "/" ++ wUuid, 0)] }

def wC4req : RequestM :=
  { url := { wUrl with pathname := "/repo/upload/" ++ wUuid }, method := "PUT",
    headers := [("authorization", "Bearer tokU"), ("content-length", "41")],
    hasBody := true, batchBody := none, verifyBody := none }

/-- Witness for C4: a matching-token PUT on a live upload key. -/
theorem C4_witness :
    wCfg.origin.href = wCfg.url.href ∧
    transferMatch wC4req.url.pathname = some ("repo", "upload", wUuid) ∧
    validateId wUuid = true ∧
    (BatchStore.has wUStore 10 ("upload" ++ "/" ++ wUuid)).1 = true ∧
    alGet wUStore.store ("upload" ++ "/" ++ wUuid) = some wUObj ∧
    wC4req.method = "PUT" ∧
    tokenEq (hGet wC4req "authorization") (actionAuth wUObj "upload") = true ∧
    (((¬ wC4req.hasBody = true ∨
        hGet wC4req "content-length" ≠ some (toString wUObj.size)) →
      (BatchServer.handle wCfg wUStore 10 wGen wC4req).1 =
        .json 400 (.message "Invalid upload") ∧
      (BatchServer.handle wCfg wUStore 10 wGen wC4req).2.2 = []) ∧
    (wC4req.hasBody = true ∧
        hGet wC4req "content-length" = some (toString wUObj.size) →
      (BatchServer.handle wCfg wUStore 10 wGen wC4req).1 =
        .delegated (.upload (BatchServer.getFile wCfg ⟨wUObj.oid, wUObj.size⟩ "repo")) ∧
      (BatchServer.handle wCfg wUStore 10 wGen wC4req).2.2 =
        [.upload (BatchServer.getFile wCfg ⟨wUObj.oid, wUObj.size⟩ "repo")])) :=
  ⟨by decide, by decide, by decide, by decide, by decide, by decide, by decide,
   C4_upload_length_guard wCfg wUStore 10 wGen wC4req "repo" wUuid wUObj
     (by decide) (by decide) (by decide) (by decide) (by decide) (by decide) (by decide)⟩

def wVObj : BatchResponseObject :=
  { oid := "abc", size := 42, authenticated := true,
    actions := [("verify",
      { expires_in := 3600, header := [("authorization", "Bearer tokV")], href := "" })] }

def wVStore : BatchStore :=
  { store := [("verify" ++ "/" ++ wUuid, wVObj)],
    dates := [("verify" ++ "/" ++ wUuid, 0)] }

def wC9r1 : RequestM :=
  { url := { wUrl with pathname := "/repo/verify/" ++ wUuid }, method := "POST",
    headers := [("accept", "application/vnd.git-lfs+json"),
                ("authorization", "Bearer tokV")],
    hasBody := true, batchBody := none, verifyBody := some { oid := "x", size := 1 } }

/-- Witness for C9: two verify requests differing only in their body. -/
theorem C9_witness :
    wCfg.origin.href = wCfg.url.href ∧
    transferMatch wC9r1.url.pathname = some ("repo", "verify", wUuid) ∧
    validateId wUuid = true ∧
    (BatchStore.has wVStore 10 ("verify" ++ "/" ++ wUuid)).1 = true ∧
    alGet wVStore.store ("verify" ++ "/" ++ wUuid) = some wVObj ∧
    wC9r1.method = "POST" ∧ acceptError wC9r1 = none ∧
    tokenEq (hGet wC9r1 "authorization") (actionAuth wVObj "verify") = true ∧
    wC9r1.verifyBody = some { oid := "x", size := 1 } ∧
    ({ wC9r1 with verifyBody := some { oid := "y", size := 2 } } : RequestM) =
      { wC9r1 with verifyBody := some { oid := "y", size := 2 } } ∧
    (BatchServer.handle wCfg wVStore 10 wGen wC9r1 =
      BatchServer.handle wCfg wVStore 10 wGen
        { wC9r1 with verifyBody := some { oid := "y", size := 2 } } ∧
    (BatchServer.handle wCfg wVStore 10 wGen wC9r1).2.2 =
      [.check (BatchServer.getFile wCfg ⟨wVObj.oid, wVObj.size⟩ "repo")] ∧
    (BatchServer.handle wCfg wVStore 10 wGen wC9r1).1 =
      (if wCfg.check (BatchServer.getFile wCfg ⟨wVObj.oid, wVObj.size⟩ "repo") = true
       then .empty 200 else .json 404 (.message "Object not found"))) :=
  ⟨by decide, by decide, by decide, by decide, by decide, by decide, by decide,
   by decide, by decide, rfl,
   C9_verify_token_bound wCfg wVStore 10 wGen wC9r1
     { wC9r1 with verifyBody := some { oid := "y", size := 2 } } "repo" wUuid wVObj
     { oid := "x", size := 1 } { oid := "y", size := 2 }
     (by decide) (by decide) (by decide) (by decide) (by decide) (by decide) (by decide)
     (by decide) (by decide) rfl⟩

def wC5req : RequestM :=
  { url := { wUrl with pathname := "/repo/objects/batch" }, method := "POST",
    headers := [("accept", "application/vnd.git-lfs+json"),
                ("authorization", "Basic dTpw")],
    hasBody := true,
    batchBody := some { objects := [{ oid := "abc", size := 42 }],
                        operation := "download" },
    verifyBody := none }

def wC5body : BatchRequest :=
  { objects := [{ oid := "abc", size := 42 }], operation := "download" }

/-- Witness for C5 at a concrete one-object download batch. -/
theorem C5_witness :
    wCfg.origin.href = wCfg.url.href ∧
    batchMatch wC5req.url.pathname = some "repo" ∧
    wC5req.method = "POST" ∧ acceptError wC5req = none ∧
    parseAuthorization (hGet wC5req "authorization") =
      .ok (some { username := wCfg.username, password := wCfg.password }) ∧
    wC5req.batchBody = some wC5body ∧
    ((wC5body.operation = "download" →
      ∃ b : BatchResponse,
        BatchServer.handle wCfg ⟨[], []⟩ 0 wGen wC5req =
          (.json 200 (.batch b),
           (BatchStore.respond ⟨[], []⟩ 0 wC5body (joinURL "repo" wCfg.origin) wGen).2.1,
           (BatchStore.respond ⟨[], []⟩ 0 wC5body (joinURL "repo" wCfg.origin) wGen).1.objects.map
             (fun ro => .check (BatchServer.getFile wCfg ⟨ro.oidOf, ro.sizeOf⟩ "repo"))) ∧
        b.hash_algo = "sha256" ∧ b.transfer = "basic" ∧
        b.objects.length =
          (BatchStore.respond ⟨[], []⟩ 0 wC5body (joinURL "repo" wCfg.origin) wGen).1.objects.length ∧
        ∀ i ro,
          (BatchStore.respond ⟨[], []⟩ 0 wC5body (joinURL "repo" wCfg.origin) wGen).1.objects.get? i =
            some ro →
          (wCfg.check (BatchServer.getFile wCfg ⟨ro.oidOf, ro.sizeOf⟩ "repo") = true →
            b.objects.get? i = some ro) ∧
          (wCfg.check (BatchServer.getFile wCfg ⟨ro.oidOf, ro.sizeOf⟩ "repo") = false →
            b.objects.get? i = some (.err ro.oidOf ro.sizeOf 404 "Object does not exist"))) ∧
    (wC5body.operation = "upload" →
      BatchServer.handle wCfg ⟨[], []⟩ 0 wGen wC5req =
        (.json 200 (.batch (BatchStore.respond ⟨[], []⟩ 0 wC5body (joinURL "repo" wCfg.origin) wGen).1),
         (BatchStore.respond ⟨[], []⟩ 0 wC5body (joinURL "repo" wCfg.origin) wGen).2.1, []))) :=
  ⟨by decide, by decide, by decide, by decide, rfl, by decide,
   C5_download_existence_checks wCfg ⟨[], []⟩ 0 wGen wC5req "repo" wC5body
     (by decide) (by decide) (by decide) (by decide) rfl (by decide)⟩

/-- Witness for the amended C7 at the concrete proxy configuration. -/
theorem C7_witness :
    c7cfg.origin.href ≠ c7cfg.url.href ∧
    (((c7cfg.origin.hostname ≠ (forwardedURL c7req).hostname ∨
      c7cfg.origin.protocol ≠ (forwardedURL c7req).protocol) →
      BatchServer.handle c7cfg ⟨[], []⟩ 0 c7gen c7req = (.empty 404, ⟨[], []⟩, [])) ∧
    (c7cfg.origin.hostname = (forwardedURL c7req).hostname ∧
      c7cfg.origin.protocol = (forwardedURL c7req).protocol →
      BatchServer.handle c7cfg ⟨[], []⟩ 0 c7gen c7req =
        BatchServer.dispatch c7cfg ⟨[], []⟩ 0 c7gen
          { c7req with url := forwardedURL c7req })) :=
  ⟨by decide, C7_proxy_guard c7cfg ⟨[], []⟩ 0 c7gen c7req (by decide)⟩
